import Mathlib

/-!
# full_autorest: the options model, the process invoker and the request handler

A shallow embedding of `model/invoke.go` and `cmd/start.go`.

Go values are represented as follows.

* `string` is an immutable byte sequence: `GoString := List Byte`.
* `*string` is `Option GoString` (`none` is the nil pointer).
* `io.Writer` is `Writer` (the nil interface value, `ioutil.Discard`, or some
  other writer identified by a number).
* `error` is `Option GoError` (`none` is nil).
* A method with a pointer receiver that mutates the receiver and returns it is
  a function from the old object to the updated object.

The standard-library functions the code calls (`fmt.Sprintf` with `%q`,
`path.Join`, `os.TempDir`) are embedded next to the code that calls them.
-/

namespace FullAutorest

/-! ## Go strings -/

/-- One byte of a Go string. -/
abbrev Byte := Fin 256

/-- Go `string`: a sequence of bytes, not necessarily valid UTF-8. -/
abbrev GoString := List Byte

/-- Conversion `byte(n)`: the low eight bits of an integer. -/
def byte (n : Nat) : Byte := ⟨n % 256, Nat.mod_lt n (by decide)⟩

/-! ## unicode/utf8 -/

namespace utf8

/-- The replacement character U+FFFD, `utf8.RuneError`. -/
def RuneError : Nat := 0xFFFD

/-- Characters below `RuneSelf` are represented as themselves in one byte. -/
def RuneSelf : Nat := 0x80

/-- Maximum valid Unicode code point, `utf8.MaxRune`. -/
def MaxRune : Nat := 0x10FFFF

/-- Table `first` of package utf8: information about the first byte of an
encoding. The high nibble indexes `acceptRanges` (or is `F` for the one-byte
cases), the low nibble is the length of the encoding. -/
def first (b : Nat) : Nat :=
  if b < 0x80 then 0xF0
  else if b < 0xC2 then 0xF1
  else if b < 0xE0 then 0x02
  else if b = 0xE0 then 0x13
  else if b < 0xED then 0x03
  else if b = 0xED then 0x23
  else if b < 0xF0 then 0x03
  else if b = 0xF0 then 0x34
  else if b < 0xF4 then 0x04
  else if b = 0xF4 then 0x44
  else 0xF1

/-- Table `acceptRanges` of package utf8: the range `(lo, hi)` of valid
second bytes. -/
def acceptRanges (i : Nat) : Nat × Nat :=
  match i with
  | 0 => (0x80, 0xBF)
  | 1 => (0xA0, 0xBF)
  | 2 => (0x80, 0x9F)
  | 3 => (0x90, 0xBF)
  | 4 => (0x80, 0x8F)
  | _ => (0, 0)

/-- Function `utf8.DecodeRuneInString`: the first rune of `s` and its width in
bytes; `(RuneError, 1)` for an invalid encoding and `(RuneError, 0)` for the
empty string. The masks and shifts of the Go code are written with `%`, `*`
and `+` (the bit fields combined by `|` are disjoint). -/
def DecodeRuneInString (s : GoString) : Nat × Nat :=
  match s with
  | [] => (RuneError, 0)
  | s0 :: _ =>
    let x := first s0.val
    if x ≥ 0xF0 then
      (if x % 2 = 1 then RuneError else s0.val, 1)
    else
      let sz := x % 8
      let accept := acceptRanges (x / 16)
      if s.length < sz then (RuneError, 1)
      else
        let s1 := (s.getD 1 0).val
        if s1 < accept.1 ∨ accept.2 < s1 then (RuneError, 1)
        else if sz ≤ 2 then ((s0.val % 32) * 64 + s1 % 64, 2)
        else
          let s2 := (s.getD 2 0).val
          if s2 < 0x80 ∨ 0xBF < s2 then (RuneError, 1)
          else if sz ≤ 3 then ((s0.val % 16) * 4096 + (s1 % 64) * 64 + s2 % 64, 3)
          else
            let s3 := (s.getD 3 0).val
            if s3 < 0x80 ∨ 0xBF < s3 then (RuneError, 1)
            else ((s0.val % 8) * 262144 + (s1 % 64) * 4096 + (s2 % 64) * 64 + s3 % 64, 4)

/-- Function `utf8.ValidRune`: a code point that is in range and not a
surrogate half. -/
def ValidRune (r : Nat) : Bool :=
  r < 0xD800 || (0xDFFF < r && r ≤ MaxRune)

/-- The three-byte encoding used by `utf8.AppendRune`. -/
def encode3 (r : Nat) : GoString :=
  [byte (0xE0 + r / 4096), byte (0x80 + r / 64 % 64), byte (0x80 + r % 64)]

/-- Function `utf8.AppendRune` applied to an empty buffer: the UTF-8 encoding
of `r`; an out-of-range rune or a surrogate half is encoded as `RuneError`. -/
def AppendRune (r : Nat) : GoString :=
  if r ≤ 0x7F then [byte r]
  else if r ≤ 0x7FF then [byte (0xC0 + r / 64), byte (0x80 + r % 64)]
  else if r > MaxRune ∨ (0xD800 ≤ r ∧ r ≤ 0xDFFF) then encode3 RuneError
  else if r ≤ 0xFFFF then encode3 r
  else [byte (0xF0 + r / 262144), byte (0x80 + r / 4096 % 64),
        byte (0x80 + r / 64 % 64), byte (0x80 + r % 64)]

end utf8

/-- A Go string literal: the UTF-8 encoding of the characters of the source
text. -/
def str (s : String) : GoString :=
  s.data.flatMap (fun c => utf8.AppendRune c.toNat)

/-! ## strconv: quoting, as used by the verb `%q` -/

namespace strconv

/-- Constant `lowerhex = "0123456789abcdef"`, indexed. -/
def lowerhex (n : Nat) : Byte :=
  if n < 10 then byte (48 + n) else byte (87 + n)

/-- Function `strconv.IsPrint`. The Latin-1 range is decided by the code of
the function; above it the function searches the generated tables
`isPrint16`, `isNotPrint16`, `isPrint32` and `isNotPrint32`, whose content
is the parameter `wide`. -/
def IsPrint (wide : Nat → Bool) (r : Nat) : Bool :=
  if r ≤ 0xFF then
    if 0x20 ≤ r ∧ r ≤ 0x7E then true
    else if 0xA1 ≤ r ∧ r ≤ 0xFF then r != 0xAD
    else false
  else wide r

/-- The hexadecimal digits of `r` from bit `4 * n - 4` down to bit 0, as in
the loops `for s := 12; s >= 0; s -= 4` and `for s := 28; ...`. -/
def hexDigits (r : Nat) : Nat → GoString
  | 0 => []
  | n + 1 => lowerhex (r / 16 ^ n % 16) :: hexDigits r n

/-- Function `strconv.appendEscapedRune` with `ASCIIonly = false` and
`graphicOnly = false`, applied to an empty buffer. -/
def appendEscapedRune (wide : Nat → Bool) (r : Nat) (quote : Byte) : GoString :=
  if r = quote.val ∨ r = 92 then [92, byte r]
  else if IsPrint wide r then utf8.AppendRune r
  else if r = 7 then [92, 97]
  else if r = 8 then [92, 98]
  else if r = 12 then [92, 102]
  else if r = 10 then [92, 110]
  else if r = 13 then [92, 114]
  else if r = 9 then [92, 116]
  else if r = 11 then [92, 118]
  else if r < 0x20 ∨ r = 0x7F then
    [92, 120, lowerhex ((byte r).val / 16), lowerhex ((byte r).val % 16)]
  else if !utf8.ValidRune r then 92 :: 117 :: hexDigits utf8.RuneError 4
  else if r < 0x10000 then 92 :: 117 :: hexDigits r 4
  else 92 :: 85 :: hexDigits r 8

/-- The loop of `strconv.appendQuotedWith`: one iteration consumes `width`
bytes of `s` (at least one) and appends the escaped form of what it read.
The fuel bounds the number of iterations; `s.length` is always enough. -/
def quoteLoop (wide : Nat → Bool) (quote : Byte) : Nat → GoString → GoString
  | 0, _ => []
  | _ + 1, [] => []
  | fuel + 1, b :: tl =>
    let rw := if b.val ≥ utf8.RuneSelf then utf8.DecodeRuneInString (b :: tl) else (b.val, 1)
    if rw.2 = 1 ∧ rw.1 = utf8.RuneError then
      [92, 120, lowerhex (b.val / 16), lowerhex (b.val % 16)] ++ quoteLoop wide quote fuel tl
    else
      appendEscapedRune wide rw.1 quote ++ quoteLoop wide quote fuel ((b :: tl).drop rw.2)

/-- Function `strconv.Quote`, which is what `%q` applies to a string operand:
a double-quoted Go string literal. -/
def Quote (wide : Nat → Bool) (s : GoString) : GoString :=
  34 :: quoteLoop wide 34 s.length s ++ [34]

end strconv

/-! ## path -/

namespace path

/-- The byte `/`. -/
def slash : Byte := 47

/-- The byte `.`. -/
def dot : Byte := 46

/-- The backtracking of `path.Clean` at a `..` element, started after the
first `out.w--`: `for out.w > dotdot && out.index(out.w) != '/' { out.w-- }`.
Returns the final `out.w`. -/
def backLoop (buf : GoString) (dotdot : Nat) : Nat → Nat
  | 0 => 0
  | w + 1 => if w + 1 > dotdot ∧ buf.getD (w + 1) 0 ≠ slash then backLoop buf dotdot w else w + 1

/-- The main loop of `path.Clean`. `rest` is `path[r:]`, `out` is the
content written so far (`out.w = out.length`). Every iteration consumes at
least one byte of `rest`, so `rest.length` fuel is enough. -/
def cleanLoop (rooted : Bool) : Nat → GoString → GoString → Nat → GoString
  | 0, _, out, _ => out
  | _ + 1, [], out, _ => out
  | fuel + 1, c :: tl, out, dotdot =>
    if c = slash then
      cleanLoop rooted fuel tl out dotdot
    else if c = dot ∧ (tl = [] ∨ tl.head? = some slash) then
      cleanLoop rooted fuel tl out dotdot
    else if c = dot ∧ tl.head? = some dot ∧ (tl.tail = [] ∨ tl.tail.head? = some slash) then
      if out.length > dotdot then
        cleanLoop rooted fuel tl.tail (out.take (backLoop out dotdot (out.length - 1))) dotdot
      else if !rooted then
        let out1 := if out.length > 0 then out ++ [slash] else out
        let out2 := out1 ++ [dot, dot]
        cleanLoop rooted fuel tl.tail out2 out2.length
      else
        cleanLoop rooted fuel tl.tail out dotdot
    else
      let out1 :=
        if (rooted = true ∧ out.length ≠ 1) ∨ (rooted = false ∧ out.length ≠ 0) then out ++ [slash]
        else out
      cleanLoop rooted fuel ((c :: tl).dropWhile (fun x => x != slash))
        (out1 ++ (c :: tl).takeWhile (fun x => x != slash)) dotdot

/-- Function `path.Clean`: the shortest path name equivalent to `p` by purely
lexical processing. -/
def Clean (p : GoString) : GoString :=
  match p with
  | [] => [dot]
  | c :: tl =>
    let rooted : Bool := c = slash
    let out :=
      if rooted then cleanLoop rooted p.length tl [slash] 1
      else cleanLoop rooted p.length p [] 0
    if out.length = 0 then [dot] else out

/-- A path element that `path.Clean` keeps as it is: not empty, without a
slash, and neither `.` nor `..`. -/
def isName (g : GoString) : Prop :=
  g ≠ [] ∧ slash ∉ g ∧ g ≠ [dot] ∧ g ≠ [dot, dot]

instance (g : GoString) : Decidable (isName g) := by
  unfold isName; infer_instance

/-- The loop of `path.Join` that concatenates the non-empty leading part and
everything after it, separated by slashes. -/
def joinLoop : List GoString → GoString → GoString
  | [], buf => buf
  | e :: es, buf =>
    if buf.length > 0 ∨ e ≠ [] then
      joinLoop es ((if buf.length > 0 then buf ++ [slash] else buf) ++ e)
    else joinLoop es buf

/-- Function `path.Join`: joins the elements with slashes, ignoring empty
elements, and cleans the result. -/
def Join (elem : List GoString) : GoString :=
  if (elem.map List.length).sum = 0 then []
  else Clean (joinLoop elem [])

end path

/-! ## Platform, writers, errors -/

/-- What the code reads from the platform it runs on. -/
structure Platform where
  /-- The value `os.TempDir()` reports: the system temp root. -/
  TempDir : GoString
  /-- The generated tables behind `strconv.IsPrint` for runes above U+00FF. -/
  isPrintWide : Nat → Bool

/-- Go `io.Writer` interface values. -/
inductive Writer where
  /-- The nil interface value. -/
  | nil : Writer
  /-- The writer `ioutil.Discard`. -/
  | Discard : Writer
  /-- Any other writer, identified by a number. -/
  | other (id : Nat) : Writer
  deriving DecidableEq, Repr

/-- A non-nil Go `error` value: the text `Error()` returns and, for an
`*exec.ExitError` of a process that exited, its exit code. -/
structure GoError where
  text : GoString
  exitCode : Option Nat
  deriving DecidableEq, Repr

/-- Go `error`: `none` is nil. -/
abbrev error := Option GoError

/-- Verb `%q` of `fmt.Sprintf` with a string operand, after the literal text
`pre` of the format: `fmt.Sprintf(pre + "%q", v)`. -/
def Sprintf_q (P : Platform) (pre : GoString) (v : GoString) : GoString :=
  pre ++ strconv.Quote P.isPrintWide v

/-! ## model/invoke.go -/

/-- Type `AutoRestLanguage`: a string. -/
abbrev AutoRestLanguage := GoString

def AutoRestLanguageDotNet : AutoRestLanguage := str "--net"
def AutoRestLanguageGo : AutoRestLanguage := str "--go"
def AutoRestLanguageJava : AutoRestLanguage := str "--java"
def AutoRestLanguageRuby : AutoRestLanguage := str "--ruby"
def AutoRestLanguagePHP : AutoRestLanguage := str "--php"
def AutoRestLanguagePython : AutoRestLanguage := str "--python"
def AutoRestLanguageSwift : AutoRestLanguage := str "--swift"

/-- Struct `AutoRestOptions`. -/
structure AutoRestOptions where
  outputFolder : Option GoString
  tag : Option GoString
  use : Option GoString
  stdout : Writer
  stderr : Writer
  deriving DecidableEq, Repr

namespace AutoRestOptions

/-- The zero value, `new(model.AutoRestOptions)`. -/
def new : AutoRestOptions :=
  { outputFolder := none, tag := none, use := none, stdout := Writer.nil, stderr := Writer.nil }

/-- Method `OutputFolder`. -/
def OutputFolder (P : Platform) (aro : AutoRestOptions) : GoString × Bool :=
  match aro.outputFolder with
  | none => (path.Join [P.TempDir, str "generated"], false)
  | some dir => (dir, true)

/-- Method `SetOutputFolder`. -/
def SetOutputFolder (aro : AutoRestOptions) (dir : GoString) : AutoRestOptions :=
  { aro with outputFolder := some dir }

/-- Method `Tag`. -/
def Tag (aro : AutoRestOptions) : GoString × Bool :=
  match aro.tag with
  | none => (str "", false)
  | some v => (v, true)

/-- Method `SetTag`. -/
def SetTag (aro : AutoRestOptions) (value : GoString) : AutoRestOptions :=
  { aro with tag := some value }

/-- Method `ClearTag`. -/
def ClearTag (aro : AutoRestOptions) : AutoRestOptions :=
  { aro with tag := none }

/-- Method `Use`. -/
def Use (aro : AutoRestOptions) : GoString × Bool :=
  match aro.use with
  | none => (str "", false)
  | some v => (v, true)

/-- Method `SetUse`. -/
def SetUse (aro : AutoRestOptions) (value : GoString) : AutoRestOptions :=
  { aro with use := some value }

/-- Method `ClearUse`. -/
def ClearUse (aro : AutoRestOptions) : AutoRestOptions :=
  { aro with use := none }

/-- Method `Stdout`. -/
def Stdout (aro : AutoRestOptions) : Writer × Bool :=
  if aro.stdout = Writer.nil then (Writer.Discard, false)
  else (aro.stdout, true)

/-- Method `SetStdout`. -/
def SetStdout (aro : AutoRestOptions) (w : Writer) : AutoRestOptions :=
  { aro with stdout := w }

/-- Method `ClearStdout`. -/
def ClearStdout (aro : AutoRestOptions) : AutoRestOptions :=
  { aro with stdout := Writer.nil }

/-- Method `Stderr`. -/
def Stderr (aro : AutoRestOptions) : Writer × Bool :=
  if aro.stderr = Writer.nil then (Writer.Discard, false)
  else (aro.stderr, true)

/-- Method `SetStderr`. -/
def SetStderr (aro : AutoRestOptions) (w : Writer) : AutoRestOptions :=
  { aro with stderr := w }

/-- Method `ClearStderr`. -/
def ClearStderr (aro : AutoRestOptions) : AutoRestOptions :=
  { aro with stderr := Writer.nil }

end AutoRestOptions

/-- A `context.Context` derived from the background context: its timeout in
nanoseconds, if it has one. -/
structure Context where
  timeout : Option Nat
  deriving DecidableEq, Repr

/-- The fields of `exec.Cmd` the code uses. `Args` holds the command line,
the program name `Args[0]` included. -/
structure Cmd where
  ctx : Context
  Name : GoString
  Args : List GoString
  Stdout : Writer
  Stderr : Writer
  deriving DecidableEq, Repr

/-- Function `exec.CommandContext(ctx, name)` without further arguments. -/
def CommandContext (ctx : Context) (name : GoString) : Cmd :=
  { ctx := ctx, Name := name, Args := [name], Stdout := Writer.nil, Stderr := Writer.nil }

/-! ## Effects -/

/-- Operands of `log.Print` and `fmt.Fprint`: a string, an integer or an
`error`. -/
inductive Arg where
  | s (v : GoString) : Arg
  | i (n : Int) : Arg
  | e (err : error) : Arg
  deriving DecidableEq, Repr

/-- Whether the operand is of kind string. -/
def Arg.isString : Arg → Bool
  | Arg.s _ => true
  | _ => false

/-- The default format `%v` of one operand. -/
def Arg.format : Arg → GoString
  | Arg.s v => v
  | Arg.i n => str (toString n)
  | Arg.e none => str "<nil>"
  | Arg.e (some x) => x.text

/-- The loop of `fmt`'s `doPrint`: a space is added between two operands
when neither is a string. -/
def doPrint : Bool → Bool → List Arg → GoString
  | _, _, [] => []
  | isFirst, prevString, a :: as =>
    (if !isFirst && !a.isString && !prevString then str " " else []) ++ a.format
      ++ doPrint false a.isString as

/-- Function `fmt.Sprint`. -/
def Sprint (a : List Arg) : GoString := doPrint true false a

/-- One observable effect of the program. -/
inductive Event where
  /-- A message handed to the logger by `log.Print`. -/
  | logPrint (msg : GoString) : Event
  /-- A context with a timeout (nanoseconds) was derived by
  `context.WithTimeout`. -/
  | withTimeout (ns : Nat) : Event
  /-- The cancel function of the context was called. -/
  | cancel : Event
  /-- A call `ioutil.TempDir(dir, pattern)`; `created` is the directory it
  created, `none` when it failed. -/
  | tempDir (dir pattern : GoString) (created : Option GoString) : Event
  /-- A call `WriteHeader(code)` on the writer `w`. -/
  | writeHeader (w : Writer) (code : Nat) : Event
  /-- Bytes written to the writer `w`. -/
  | write (w : Writer) (p : GoString) : Event
  /-- Method `Run` was called on the command. -/
  | run (cmd : Cmd) : Event
  /-- A call `os.RemoveAll(p)`. -/
  | removeAll (p : GoString) : Event
  /-- A call `http.HandleFunc(pattern, handleGenerate)`. -/
  | handleFunc (pattern : GoString) : Event
  /-- A call `http.ListenAndServe(addr, nil)`. -/
  | listenAndServe (addr : GoString) : Event
  deriving DecidableEq, Repr

/-- The state the program acts on: the paths that exist on disk and the
effects performed so far, oldest first. -/
structure World where
  paths : List GoString
  trace : List Event

/-- Records an effect. -/
def World.emit (w : World) (ev : Event) : World :=
  { w with trace := w.trace ++ [ev] }

/-- Function `log.Print`. -/
def logPrint (a : List Arg) (w : World) : World :=
  w.emit (Event.logPrint (Sprint a))

/-- Function `fmt.Fprint(dst, a...)`: writes the formatted operands to `dst`. -/
def Fprint (dst : Writer) (a : List Arg) (w : World) : World :=
  w.emit (Event.write dst (Sprint a))

/-- Method `WriteHeader` of an `http.ResponseWriter`. -/
def WriteHeader (dst : Writer) (code : Nat) (w : World) : World :=
  w.emit (Event.writeHeader dst code)

/-- Function `ioutil.TempDir(dir, pattern)` with the outcome `res` the
operating system gave: on success the new directory exists. -/
def TempDir (dir pattern : GoString) (res : Except GoError GoString) (w : World) :
    (Except GoError GoString) × World :=
  match res with
  | Except.error err => (Except.error err, w.emit (Event.tempDir dir pattern none))
  | Except.ok name =>
    (Except.ok name, { (w.emit (Event.tempDir dir pattern (some name))) with paths := name :: w.paths })

/-- Whether `q` is `p` or lies below `p`. -/
def isWithin (p q : GoString) : Bool :=
  q == p || (p ++ [path.slash]).isPrefixOf q

/-- The outcome of a call of `os.RemoveAll`: the error it returned (nil when
everything was removed) and, when it failed, which of the paths it was to
remove it left on disk. -/
structure RemoveResult where
  err : error
  left : GoString → Bool

/-- Function `os.RemoveAll(p)` with the outcome `res` the operating system
gave: it removes `p` and any children it contains; it removes everything it
can and returns the first error it meets. -/
def RemoveAll (p : GoString) (res : RemoveResult) (w : World) : error × World :=
  (res.err,
    { (w.emit (Event.removeAll p)) with
      paths := w.paths.filter (fun q => !isWithin p q || (res.err.isSome && res.left q)) })

/-- What became of the process of a command. -/
inductive ProcessOutcome where
  /-- Method `Start` failed with an error of this text and no process was
  started: the binary was not found, the context was already done. -/
  | notStarted (text : GoString) : ProcessOutcome
  /-- The process ran and exited with status `code`; `copyErr` is the text of
  the first error met while copying its output to the writers of the
  command, if there was one. -/
  | exited (code : Nat) (copyErr : Option GoString) : ProcessOutcome
  /-- The process was terminated by a signal, for instance killed when the
  context expired; `text` describes the state (`signal: killed`). -/
  | signaled (text : GoString) : ProcessOutcome
  deriving DecidableEq, Repr

/-- The error methods `Start` and `Wait` of `exec.Cmd` produce for an
outcome: the error of `Start` when the process was not started; an
`*exec.ExitError` when the process did not exit with status zero (it carries
the exit code when the process exited); the copy error, if any, when the
process exited with status zero. -/
def ProcessOutcome.error : ProcessOutcome → error
  | ProcessOutcome.notStarted text => some { text := text, exitCode := none }
  | ProcessOutcome.exited 0 none => none
  | ProcessOutcome.exited 0 (some text) => some { text := text, exitCode := none }
  | ProcessOutcome.exited (c + 1) _ =>
    some { text := str "exit status " ++ str (toString (c + 1)), exitCode := some (c + 1) }
  | ProcessOutcome.signaled text => some { text := text, exitCode := none }

/-- What running a command did: what became of the process, what the
process did to the set of paths on disk, and the chunks the process wrote in
emission order (`true` marks a chunk written to standard error). -/
structure RunResult where
  outcome : ProcessOutcome
  fs : List GoString → List GoString
  output : List (Bool × GoString)

/-- The error `Cmd.Run` returned. -/
def RunResult.err (r : RunResult) : error := r.outcome.error

/-- The writes of a process: every chunk goes to the writer bound to its
stream. -/
def outputEvents (cmd : Cmd) (output : List (Bool × GoString)) : List Event :=
  output.map (fun c => Event.write (if c.1 then cmd.Stderr else cmd.Stdout) c.2)

/-- Method `Run` of `exec.Cmd`: starts the command and waits for it. `run` is
the operating system: what happens for a given command. -/
def Cmd.Run (run : Cmd → RunResult) (cmd : Cmd) (w : World) : error × World :=
  let res := run cmd
  (res.err,
    { paths := res.fs w.paths,
      trace := w.trace ++ [Event.run cmd] ++ outputEvents cmd res.output })

/-- The state of the response behind the writer `resp` after a sequence of
effects: the status line sent, if any, and the body. The first `WriteHeader`
fixes the status, and a write before any `WriteHeader` sends status 200. -/
def response (resp : Writer) : List Event → Option Nat × GoString → Option Nat × GoString
  | [], st => st
  | Event.writeHeader dst code :: evs, st =>
    response resp evs (if dst = resp then (some (st.1.getD code), st.2) else st)
  | Event.write dst p :: evs, st =>
    response resp evs (if dst = resp then (some (st.1.getD 200), st.2 ++ p) else st)
  | _ :: evs, st => response resp evs st

/-! ## model/invoke.go: InvokeAutoRest -/

/-- The variable `invoker` of `InvokeAutoRest` when `invoker.Run()` is
called (lines 15 to 32). -/
def InvokeAutoRest.invoker (P : Platform) (ctx : Context) (language : AutoRestLanguage)
    (inputFiles : List GoString) (options : AutoRestOptions) : Cmd :=
  let invoker := CommandContext ctx (str "autorest")
  let invoker := { invoker with Args := invoker.Args ++ [language] }
  let invoker :=
    match options.Use with
    | (useVal, true) => { invoker with Args := invoker.Args ++ [Sprintf_q P (str "--use=") useVal] }
    | (_, false) => invoker
  let invoker :=
    match options.Tag with
    | (tagVal, true) => { invoker with Args := invoker.Args ++ [Sprintf_q P (str "--tag=") tagVal] }
    | (_, false) => invoker
  let outputFolder := (options.OutputFolder P).1
  let invoker :=
    { invoker with Args := invoker.Args ++ [Sprintf_q P (str "--output-folder=") outputFolder] }
  let invoker := { invoker with Args := invoker.Args ++ inputFiles }
  let invoker := { invoker with Stdout := options.Stdout.1 }
  let invoker := { invoker with Stderr := options.Stderr.1 }
  invoker

/-- Function `InvokeAutoRest`: builds the command and runs it. -/
def InvokeAutoRest (P : Platform) (run : Cmd → RunResult) (ctx : Context)
    (language : AutoRestLanguage) (inputFiles : List GoString) (options : AutoRestOptions)
    (w : World) : error × World :=
  Cmd.Run run (InvokeAutoRest.invoker P ctx language inputFiles options) w

/-! ## cmd/start.go: handleGenerate -/

/-- Constant `autorestTimeout = 5 * 60 * time.Second`, in nanoseconds. -/
def autorestTimeout : Nat := 5 * 60 * 1000000000

/-- Constant `http.StatusInternalServerError`. -/
def StatusInternalServerError : Nat := 500

/-- The one input specification `handleGenerate` passes. -/
def specification : GoString :=
  str ("https://github.com/Azure/azure-rest-api-specs/blob/" ++
    "27c79e5cf0a222441b18828ae81551308e84c758/specification/batch/resource-manager/readme.md")

/-- Function `handleGenerate`. `resp` is the response writer of the request,
`mkTemp` the outcome of the call of `ioutil.TempDir`, `run` the operating
system running a command and `rm` the outcome of the call of `os.RemoveAll`.
The deferred calls run when the function returns, last deferred first; the
error the deferred `os.RemoveAll` returns is discarded. -/
def handleGenerate (P : Platform) (mkTemp : Except GoError GoString) (run : Cmd → RunResult)
    (rm : RemoveResult) (resp : Writer) (w : World) : World :=
  let w := logPrint [Arg.s (str "request received: generate")] w
  let ctx : Context := { timeout := some autorestTimeout }
  let w := w.emit (Event.withTimeout autorestTimeout)
  match TempDir (str "") (str "full_autorest") mkTemp w with
  | (Except.error err, w) =>
    let w := WriteHeader resp StatusInternalServerError w
    let w := Fprint resp [Arg.e (some err)] w
    w.emit Event.cancel
  | (Except.ok outputLocation, w) =>
    let options :=
      ((AutoRestOptions.new.SetOutputFolder outputLocation).SetStdout resp).SetStderr resp
    let r := InvokeAutoRest P run ctx AutoRestLanguageGo [specification] options w
    let w := logPrint [Arg.s (str "err: "), Arg.e r.1] r.2
    let w := (RemoveAll outputLocation rm w).2
    w.emit Event.cancel

/-! ## Sequences of operations on an options value -/

/-- The exported operations that modify an `AutoRestOptions` value: the
methods of lines 73 to 168 of `model/invoke.go`. -/
inductive Op where
  | SetOutputFolder (dir : GoString) : Op
  | SetTag (value : GoString) : Op
  | ClearTag : Op
  | SetUse (value : GoString) : Op
  | ClearUse : Op
  | SetStdout (w : Writer) : Op
  | ClearStdout : Op
  | SetStderr (w : Writer) : Op
  | ClearStderr : Op
  deriving DecidableEq, Repr

/-- Applies one operation. -/
def Op.apply (aro : AutoRestOptions) : Op → AutoRestOptions
  | Op.SetOutputFolder dir => aro.SetOutputFolder dir
  | Op.SetTag value => aro.SetTag value
  | Op.ClearTag => aro.ClearTag
  | Op.SetUse value => aro.SetUse value
  | Op.ClearUse => aro.ClearUse
  | Op.SetStdout w => aro.SetStdout w
  | Op.ClearStdout => aro.ClearStdout
  | Op.SetStderr w => aro.SetStderr w
  | Op.ClearStderr => aro.ClearStderr

/-- Applies a sequence of operations, first to last. -/
def Op.applyAll (aro : AutoRestOptions) (ops : List Op) : AutoRestOptions :=
  ops.foldl Op.apply aro

/-- The options value `handleGenerate` builds for the directory
`outputLocation` and the response writer `resp` (line 83). -/
def handleGenerate.options (outputLocation : GoString) (resp : Writer) : AutoRestOptions :=
  ((AutoRestOptions.new.SetOutputFolder outputLocation).SetStdout resp).SetStderr resp

/-- The command `handleGenerate` has `InvokeAutoRest` run. -/
def handleGenerate.cmd (P : Platform) (outputLocation : GoString) (resp : Writer) : Cmd :=
  InvokeAutoRest.invoker P { timeout := some autorestTimeout } AutoRestLanguageGo [specification]
    (handleGenerate.options outputLocation resp)

/-- A platform for concrete evaluations: temp root `/tmp`. -/
def unixPlatform : Platform := { TempDir := str "/tmp", isPrintWide := fun _ => false }

/-! ## cmd/start.go: the start command -/

/-- The function `Run` of `startCmd` (lines 57 to 64). `port` is the value
`startFlags.GetInt(startPortLong)`, and `serve` is what
`http.ListenAndServe` returns for an address once it returns. -/
def startCmd.Run (port : Int) (serve : GoString → error) (w : World) : World :=
  let w := w.emit (Event.handleFunc (str "/generate"))
  let w := logPrint [Arg.s (str "starting full_autorest server on port "), Arg.i port] w
  let addr := str ":" ++ str (toString port)
  let w := w.emit (Event.listenAndServe addr)
  let err := serve addr
  if err = none then logPrint [Arg.s (str "unable to start server: "), Arg.e err] w
  else w

/-! ## Auxiliary notions for the statements -/

/-- The command of a `run` effect. -/
def Event.cmd : Event → Option Cmd
  | Event.run c => some c
  | _ => none

/-- A string made only of printable ASCII characters (space to `~`) other
than the double quote and the backslash. -/
def isPlain (v : GoString) : Prop :=
  ∀ b ∈ v, 0x20 ≤ b.val ∧ b.val ≤ 0x7E ∧ b.val ≠ 34 ∧ b.val ≠ 92

instance (v : GoString) : Decidable (isPlain v) := by
  unfold isPlain; infer_instance

/-! ## Decoding of quoted strings

The output of the loop of `strconv.Quote` is a sequence of code words, one
per iteration. The functions below read that output back; they are used to
show that quoting loses nothing. -/

namespace strconv

/-- One iteration of the loop of `strconv.appendQuotedWith` on the non-empty
string `b :: tl`, with the double quote as quote: the bytes appended and the
number of bytes of the string consumed. -/
def chunk (wide : Nat → Bool) (b : Byte) (tl : GoString) : GoString × Nat :=
  let rw := if b.val ≥ utf8.RuneSelf then utf8.DecodeRuneInString (b :: tl) else (b.val, 1)
  if rw.2 = 1 ∧ rw.1 = utf8.RuneError then
    ([92, 120, lowerhex (b.val / 16), lowerhex (b.val % 16)], 1)
  else
    (appendEscapedRune wide rw.1 34, rw.2)

/-- The value of a hexadecimal digit of `lowerhex`. -/
def hexVal (d : Byte) : Nat :=
  if d.val < 58 then d.val - 48 else d.val - 87

/-- The number written by a sequence of hexadecimal digits. -/
def hexValue (ds : GoString) : Nat :=
  ds.foldl (fun acc d => acc * 16 + hexVal d) 0

/-- The length of the code word at the head of quoted output, read off its
first two bytes. -/
def codeLen (out : GoString) : Nat :=
  match out with
  | [] => 0
  | b0 :: rest =>
    if b0.val = 92 then
      match rest with
      | [] => 1
      | b1 :: _ =>
        if b1.val = 120 then 4
        else if b1.val = 117 then 6
        else if b1.val = 85 then 10
        else 2
    else if b0.val < 0x80 then 1
    else if b0.val < 0xE0 then 2
    else if b0.val < 0xF0 then 3
    else 4

/-- The bytes a code word stands for. -/
def unescape (c : GoString) : GoString :=
  match c with
  | b0 :: b1 :: rest =>
    if b0.val = 92 then
      if b1.val = 120 then [byte (hexVal (rest.getD 0 0) * 16 + hexVal (rest.getD 1 0))]
      else if b1.val = 117 ∨ b1.val = 85 then utf8.AppendRune (hexValue rest)
      else if b1.val = 97 then [7]
      else if b1.val = 98 then [8]
      else if b1.val = 102 then [12]
      else if b1.val = 110 then [10]
      else if b1.val = 114 then [13]
      else if b1.val = 116 then [9]
      else if b1.val = 118 then [11]
      else [b1]
    else c
  | _ => c

/-- A code word whose length can be read off its first two bytes even when
more output follows it. -/
def isCode (c : GoString) : Prop :=
  codeLen c = c.length ∧ 1 ≤ c.length ∧ (c.length = 1 → c.head? ≠ some 92)

instance (c : GoString) : Decidable (isCode c) := by
  unfold isCode; infer_instance

end strconv

/-! ## Theorems -/

/-- The command line `InvokeAutoRest` builds, in closed form. -/
theorem invoker_Args (P : Platform) (ctx : Context) (L : AutoRestLanguage)
    (xs : List GoString) (o : AutoRestOptions) :
    (InvokeAutoRest.invoker P ctx L xs o).Args =
      str "autorest" :: L ::
        ((if o.Use.2 = true then [str "--use=" ++ strconv.Quote P.isPrintWide o.Use.1] else [])
          ++ (if o.Tag.2 = true then [str "--tag=" ++ strconv.Quote P.isPrintWide o.Tag.1] else [])
          ++ [str "--output-folder=" ++ strconv.Quote P.isPrintWide (o.OutputFolder P).1]
          ++ xs) := by
  cases hu : o.use <;> cases ht : o.tag <;>
    simp [InvokeAutoRest.invoker, CommandContext, Sprintf_q, AutoRestOptions.Use,
      AutoRestOptions.Tag, hu, ht]

/-- C1: for every language token, options value and input list, the
arguments after the program name `autorest` are the language token, then
`--use=<quoted use>` exactly when use is explicitly set, then
`--tag=<quoted tag>` exactly when tag is explicitly set, then
`--output-folder=<quoted resolved folder>` always, then the inputs verbatim
and in order; this is the command that is run. With tag `v1`, nothing else
set, inputs `[specA]` and language Go the vector is
`[--go, --tag="v1", --output-folder="<default>", specA]`. -/
theorem C1_argument_vector (P : Platform) (run : Cmd → RunResult) (ctx : Context)
    (L : AutoRestLanguage) (xs : List GoString) (o : AutoRestOptions) (w : World) :
    (InvokeAutoRest.invoker P ctx L xs o).Args =
        [str "autorest"] ++ [L]
          ++ (if o.Use.2 = true then [str "--use=" ++ strconv.Quote P.isPrintWide o.Use.1] else [])
          ++ (if o.Tag.2 = true then [str "--tag=" ++ strconv.Quote P.isPrintWide o.Tag.1] else [])
          ++ [str "--output-folder=" ++ strconv.Quote P.isPrintWide (o.OutputFolder P).1]
          ++ xs
      ∧ (InvokeAutoRest P run ctx L xs o w).2.trace =
          w.trace ++ [Event.run (InvokeAutoRest.invoker P ctx L xs o)]
            ++ outputEvents (InvokeAutoRest.invoker P ctx L xs o)
                (run (InvokeAutoRest.invoker P ctx L xs o)).output
      ∧ (InvokeAutoRest.invoker P ctx AutoRestLanguageGo [str "specA"]
            (AutoRestOptions.new.SetTag (str "v1"))).Args =
          [str "autorest", str "--go", str "--tag=\"v1\"",
            str "--output-folder=" ++ strconv.Quote P.isPrintWide
              (path.Join [P.TempDir, str "generated"]),
            str "specA"]
      ∧ (InvokeAutoRest.invoker unixPlatform ctx AutoRestLanguageGo [str "specA"]
            (AutoRestOptions.new.SetTag (str "v1"))).Args =
          [str "autorest", str "--go", str "--tag=\"v1\"",
            str "--output-folder=\"/tmp/generated\"", str "specA"] := by
  refine ⟨?_, rfl, ?_, ?_⟩
  · rw [invoker_Args]; simp
  · rw [invoker_Args]
    have h : strconv.Quote P.isPrintWide (str "v1") = str "\"v1\"" := by rfl
    have h2 : str "--tag=" ++ str "\"v1\"" = str "--tag=\"v1\"" := by decide
    simp [AutoRestOptions.Use, AutoRestOptions.Tag, AutoRestOptions.OutputFolder,
      AutoRestOptions.SetTag, AutoRestOptions.new, AutoRestLanguageGo, h, h2]
  · rw [invoker_Args]; decide

/-- C2: a fresh options value reports tag and use as `("", false)`; after
`SetTag v` / `SetUse v` on any state the getter returns `(v, true)`, the
empty string included; after a following `ClearTag` / `ClearUse`, and after
a clear on any state, it returns `("", false)`. -/
theorem C2_tag_use_get_set_clear (s : AutoRestOptions) (v : GoString) :
    AutoRestOptions.new.Tag = (str "", false)
      ∧ AutoRestOptions.new.Use = (str "", false)
      ∧ (s.SetTag v).Tag = (v, true)
      ∧ (s.SetUse v).Use = (v, true)
      ∧ (s.SetTag (str "")).Tag = (str "", true)
      ∧ (s.SetUse (str "")).Use = (str "", true)
      ∧ (s.SetTag v).ClearTag.Tag = (str "", false)
      ∧ (s.SetUse v).ClearUse.Use = (str "", false)
      ∧ s.ClearTag.Tag = (str "", false)
      ∧ s.ClearUse.Use = (str "", false) := by
  simp [AutoRestOptions.new, AutoRestOptions.Tag, AutoRestOptions.Use, AutoRestOptions.SetTag,
    AutoRestOptions.SetUse, AutoRestOptions.ClearTag, AutoRestOptions.ClearUse]

/-- C3, as stated, fails: after `SetStdout(nil)` / `SetStderr(nil)` the
getter does not return `(nil, true)` but `(ioutil.Discard, false)`. -/
theorem C3_nil_writer_counterexample :
    (AutoRestOptions.new.SetStdout Writer.nil).Stdout ≠ (Writer.nil, true)
      ∧ (AutoRestOptions.new.SetStdout Writer.nil).Stdout = (Writer.Discard, false)
      ∧ (AutoRestOptions.new.SetStderr Writer.nil).Stderr ≠ (Writer.nil, true)
      ∧ (AutoRestOptions.new.SetStderr Writer.nil).Stderr = (Writer.Discard, false) := by
  decide

/-- C3, amended: for every writer `w` other than the nil writer, after
`SetStdout w` / `SetStderr w` on any state the getter returns `(w, true)`;
setting the nil writer leaves the sink unset; an unset or cleared sink
resolves to `(ioutil.Discard, false)`. -/
theorem C3_sinks_get_set_clear (s : AutoRestOptions) (w : Writer) (hw : w ≠ Writer.nil) :
    (s.SetStdout w).Stdout = (w, true)
      ∧ (s.SetStderr w).Stderr = (w, true)
      ∧ (s.SetStdout Writer.nil).Stdout = (Writer.Discard, false)
      ∧ (s.SetStderr Writer.nil).Stderr = (Writer.Discard, false)
      ∧ AutoRestOptions.new.Stdout = (Writer.Discard, false)
      ∧ AutoRestOptions.new.Stderr = (Writer.Discard, false)
      ∧ (s.SetStdout w).ClearStdout.Stdout = (Writer.Discard, false)
      ∧ (s.SetStderr w).ClearStderr.Stderr = (Writer.Discard, false)
      ∧ s.ClearStdout.Stdout = (Writer.Discard, false)
      ∧ s.ClearStderr.Stderr = (Writer.Discard, false) := by
  simp [AutoRestOptions.new, AutoRestOptions.Stdout, AutoRestOptions.Stderr,
    AutoRestOptions.SetStdout, AutoRestOptions.SetStderr, AutoRestOptions.ClearStdout,
    AutoRestOptions.ClearStderr, hw]

/-- C3, amended, at the writer number 1 and the writer `ioutil.Discard`
passed explicitly. -/
theorem C3_sinks_get_set_clear_witness :
    (AutoRestOptions.new.SetStdout (Writer.other 1)).Stdout = (Writer.other 1, true)
      ∧ (AutoRestOptions.new.SetStdout Writer.Discard).Stdout = (Writer.Discard, true) :=
  ⟨(C3_sinks_get_set_clear AutoRestOptions.new (Writer.other 1) (by decide)).1,
   (C3_sinks_get_set_clear AutoRestOptions.new Writer.Discard (by decide)).1⟩

/-- C8: on every state `ClearStderr` yields the same state as
`SetStderr(nil)`, hence the same results of every getter afterwards. -/
theorem C8_clearStderr_eq_setStderr_nil (P : Platform) (s : AutoRestOptions) :
    s.ClearStderr = s.SetStderr Writer.nil
      ∧ s.ClearStderr.Stderr = (s.SetStderr Writer.nil).Stderr
      ∧ s.ClearStderr.Stdout = (s.SetStderr Writer.nil).Stdout
      ∧ s.ClearStderr.Tag = (s.SetStderr Writer.nil).Tag
      ∧ s.ClearStderr.Use = (s.SetStderr Writer.nil).Use
      ∧ s.ClearStderr.OutputFolder P = (s.SetStderr Writer.nil).OutputFolder P :=
  ⟨rfl, rfl, rfl, rfl, rfl, rfl⟩

/-- C9, the code at the failing input: two distinct options values without
an output folder resolve to the same default folder `/tmp/generated`; there
is no unique identifier in it. -/
theorem C9_default_folder_not_unique :
    AutoRestOptions.new ≠ AutoRestOptions.new.SetTag (str "v1")
      ∧ AutoRestOptions.new.OutputFolder unixPlatform = (str "/tmp/generated", false)
      ∧ (AutoRestOptions.new.SetTag (str "v1")).OutputFolder unixPlatform
          = (str "/tmp/generated", false) := by
  decide

/-- The field `outputFolder` after one operation is set if it was set. -/
theorem Op.apply_outputFolder_isSome (s : AutoRestOptions) (op : Op)
    (h : s.outputFolder.isSome = true) : (Op.apply s op).outputFolder.isSome = true := by
  cases op <;>
    simp_all [Op.apply, AutoRestOptions.SetOutputFolder, AutoRestOptions.SetTag,
      AutoRestOptions.ClearTag, AutoRestOptions.SetUse, AutoRestOptions.ClearUse,
      AutoRestOptions.SetStdout, AutoRestOptions.ClearStdout, AutoRestOptions.SetStderr,
      AutoRestOptions.ClearStderr]

/-- The field `outputFolder` after a sequence of operations is set if it was
set. -/
theorem Op.applyAll_outputFolder_isSome (ops : List Op) (s : AutoRestOptions)
    (h : s.outputFolder.isSome = true) : (Op.applyAll s ops).outputFolder.isSome = true := by
  induction ops generalizing s with
  | nil => simpa [Op.applyAll] using h
  | cons op ops ih =>
    have := ih (Op.apply s op) (Op.apply_outputFolder_isSome s op h)
    simpa [Op.applyAll] using this

/-- C10, the code: once `SetOutputFolder` has been applied, no sequence of
the exported operations brings `OutputFolder()` back to the unset state: the
flag stays `true`. -/
theorem C10_outputFolder_never_cleared (P : Platform) (s : AutoRestOptions) (p : GoString)
    (ops : List Op) :
    ((Op.applyAll (s.SetOutputFolder p) ops).OutputFolder P).2 = true := by
  have h := Op.applyAll_outputFolder_isSome ops (s.SetOutputFolder p)
    (by simp [AutoRestOptions.SetOutputFolder])
  cases hf : (Op.applyAll (s.SetOutputFolder p) ops).outputFolder with
  | none => simp [hf] at h
  | some d => simp [AutoRestOptions.OutputFolder, hf]

/-! ### path.Clean on a clean path -/

theorem path.cleanLoop_nil (rooted : Bool) (fuel : Nat) (out : GoString) (dd : Nat) :
    path.cleanLoop rooted fuel [] out dd = out := by
  cases fuel <;> rfl

theorem path.cleanLoop_slash (rooted : Bool) (fuel : Nat) (rest out : GoString) (dd : Nat) :
    path.cleanLoop rooted (fuel + 1) (path.slash :: rest) out dd
      = path.cleanLoop rooted fuel rest out dd := by
  simp [path.cleanLoop]

theorem path.takeWhile_name (g rest : GoString) (hg : path.slash ∉ g)
    (hrest : rest = [] ∨ rest.head? = some path.slash) :
    (g ++ rest).takeWhile (fun x => x != path.slash) = g
      ∧ (g ++ rest).dropWhile (fun x => x != path.slash) = rest := by
  induction g with
  | nil =>
    rcases hrest with h | h
    · subst h; simp
    · cases rest with
      | nil => simp
      | cons a t =>
        simp at h
        subst h
        simp [List.takeWhile, List.dropWhile]
  | cons a t ih =>
    have ha : a ≠ path.slash := fun h => hg (by simp [h])
    have ht : path.slash ∉ t := fun h => hg (by simp [h])
    have hb : (a != path.slash) = true := by simp [ha]
    have := ih ht
    simp [List.takeWhile, List.dropWhile, hb, this]

theorem path.cleanLoop_name (rooted : Bool) (fuel : Nat) (g rest out : GoString) (dd : Nat)
    (hg : path.isName g) (hrest : rest = [] ∨ rest.head? = some path.slash) :
    path.cleanLoop rooted (fuel + 1) (g ++ rest) out dd
      = path.cleanLoop rooted fuel rest
          ((if (rooted = true ∧ out.length ≠ 1) ∨ (rooted = false ∧ out.length ≠ 0)
              then out ++ [path.slash] else out) ++ g) dd := by
  obtain ⟨hne, hs, hd, hdd⟩ := hg
  cases g with
  | nil => exact absurd rfl hne
  | cons c tl =>
    have hc : c ≠ path.slash := fun h => hs (by simp [h])
    have htl : path.slash ∉ tl := fun h => hs (by simp [h])
    have h2 : ¬ (c = path.dot ∧ (tl ++ rest = [] ∨ (tl ++ rest).head? = some path.slash)) := by
      rintro ⟨hcd, h⟩
      cases tl with
      | nil => exact hd (by rw [hcd])
      | cons a t =>
        rcases h with h | h
        · simp at h
        · simp at h
          exact htl (by simp [h])
    have h3 : ¬ (c = path.dot ∧ (tl ++ rest).head? = some path.dot
        ∧ ((tl ++ rest).tail = [] ∨ (tl ++ rest).tail.head? = some path.slash)) := by
      rintro ⟨hcd, hh, h⟩
      cases tl with
      | nil =>
        rcases hrest with hr | hr
        · subst hr; simp at hh
        · simp at hh
          rw [hr] at hh
          exact absurd hh (by decide)
      | cons a t =>
        simp at hh
        subst hh
        cases t with
        | nil => exact hdd (by rw [hcd])
        | cons b u =>
          rcases h with h | h
          · simp at h
          · simp at h
            exact htl (by simp [h])
    have htw := path.takeWhile_name (c :: tl) rest hs hrest
    have e1 : (c :: (tl ++ rest)).takeWhile (fun x => x != path.slash) = c :: tl := by
      simpa using htw.1
    have e2 : (c :: (tl ++ rest)).dropWhile (fun x => x != path.slash) = rest := by
      simpa using htw.2
    show path.cleanLoop rooted (fuel + 1) (c :: (tl ++ rest)) out dd = _
    rw [path.cleanLoop]
    rw [if_neg hc, if_neg h2, if_neg h3, e1, e2]

theorem path.length_flatMap_names (gs : List GoString) (h : ∀ g ∈ gs, path.isName g) :
    2 * gs.length ≤ (gs.flatMap (fun g => path.slash :: g)).length := by
  induction gs with
  | nil => simp
  | cons g gs ih =>
    have hg : g ≠ [] := (h g (by simp)).1
    have hl : 1 ≤ g.length := List.length_pos.mpr hg
    have := ih (fun x hx => h x (by simp [hx]))
    simp only [List.flatMap_cons, List.length_append, List.length_cons]
    omega

theorem path.cleanLoop_names (rooted : Bool) (dd : Nat) (gs : List GoString)
    (h : ∀ g ∈ gs, path.isName g) (fuel : Nat) (hfuel : 2 * gs.length ≤ fuel) (out : GoString)
    (hout : 2 ≤ out.length ∨ (rooted = false ∧ 1 ≤ out.length)) :
    path.cleanLoop rooted fuel (gs.flatMap (fun g => path.slash :: g)) out dd
      = out ++ gs.flatMap (fun g => path.slash :: g) := by
  induction gs generalizing fuel out with
  | nil => simp [path.cleanLoop_nil]
  | cons g gs ih =>
    obtain ⟨f, rfl⟩ : ∃ f, fuel = f + 2 := ⟨fuel - 2, by simp at hfuel; omega⟩
    have hrest : gs.flatMap (fun g => path.slash :: g) = []
        ∨ (gs.flatMap (fun g => path.slash :: g)).head? = some path.slash := by
      cases gs with
      | nil => left; rfl
      | cons a t => right; simp
    have hcond : (rooted = true ∧ out.length ≠ 1) ∨ (rooted = false ∧ out.length ≠ 0) := by
      cases rooted
      · right; exact ⟨rfl, by omega⟩
      · left; refine ⟨rfl, ?_⟩
        rcases hout with h2 | ⟨h2, _⟩
        · omega
        · exact absurd h2 (by decide)
    simp only [List.flatMap_cons, List.cons_append]
    rw [path.cleanLoop_slash, path.cleanLoop_name rooted f g _ out dd (h g (by simp)) hrest,
      if_pos hcond, ih (fun x hx => h x (by simp [hx])) f (by simp at hfuel; omega)
        (out ++ [path.slash] ++ g) (by left; simp; omega)]
    simp

/-- Function `path.Clean` returns a path unchanged when it consists of names
separated by single slashes, with or without a leading slash. -/
theorem path.Clean_names (rooted : Bool) (g0 : GoString) (gs : List GoString)
    (h0 : path.isName g0) (h : ∀ g ∈ gs, path.isName g) :
    path.Clean ((if rooted = true then [path.slash] else []) ++ g0
        ++ gs.flatMap (fun g => path.slash :: g))
      = (if rooted = true then [path.slash] else []) ++ g0
        ++ gs.flatMap (fun g => path.slash :: g) := by
  have hlen := path.length_flatMap_names gs h
  have hrest : gs.flatMap (fun g => path.slash :: g) = []
      ∨ (gs.flatMap (fun g => path.slash :: g)).head? = some path.slash := by
    cases gs with
    | nil => left; rfl
    | cons a t => right; simp
  have hg0 : 1 ≤ g0.length := List.length_pos.mpr h0.1
  cases rooted with
  | true =>
    have key : ∀ n, g0.length + (gs.flatMap (fun g => path.slash :: g)).length ≤ n →
        path.cleanLoop true (n + 1) (g0 ++ gs.flatMap (fun g => path.slash :: g)) [path.slash] 1
          = path.slash :: (g0 ++ gs.flatMap (fun g => path.slash :: g)) := by
      intro n hn
      rw [path.cleanLoop_name true _ g0 _ [path.slash] 1 h0 hrest]
      rw [path.cleanLoop_names true 1 gs h _ (by omega) _ (by left; simp; omega)]
      simp
    have e : (if true = true then [path.slash] else []) ++ g0
          ++ gs.flatMap (fun g => path.slash :: g)
        = path.slash :: (g0 ++ gs.flatMap (fun g => path.slash :: g)) := by simp
    rw [e]
    simp only [path.Clean, decide_True, List.length_cons, List.length_append, if_true]
    rw [key _ (by omega)]
    simp
  | false =>
    cases hg : g0 with
    | nil => exact absurd hg h0.1
    | cons c tl =>
      have hc : c ≠ path.slash := fun hh => h0.2.1 (by simp [hg, hh])
      have h0c : path.isName (c :: tl) := hg ▸ h0
      have hl : 1 ≤ (c :: tl).length := by simp
      have key : ∀ n, tl.length + (gs.flatMap (fun g => path.slash :: g)).length ≤ n →
          path.cleanLoop false (n + 1) (c :: (tl ++ gs.flatMap (fun g => path.slash :: g))) [] 0
            = c :: (tl ++ gs.flatMap (fun g => path.slash :: g)) := by
        intro n hn
        have := path.cleanLoop_name false n (c :: tl) (gs.flatMap (fun g => path.slash :: g))
          [] 0 h0c hrest
        simp only [List.cons_append] at this
        rw [this]
        rw [path.cleanLoop_names false 0 gs h _ (by omega) _ (by right; simp)]
        simp
      simp only [Bool.false_eq_true, if_false, List.nil_append, List.cons_append, path.Clean,
        List.length_cons, List.length_append, decide_eq_true_eq, hc, decide_False]
      rw [key _ (by omega)]
      simp

/-- Function `path.Join` of a temp root made of names and the element
`generated` is the root followed by `/generated`. -/
theorem path.Join_generated (rooted : Bool) (g0 : GoString) (gs : List GoString)
    (h0 : path.isName g0) (h : ∀ g ∈ gs, path.isName g) (T : GoString)
    (hT : T = (if rooted = true then [path.slash] else []) ++ g0
        ++ gs.flatMap (fun g => path.slash :: g)) :
    path.Join [T, str "generated"] = T ++ str "/generated" := by
  have hgen : path.isName (str "generated") := by decide
  have hne : T ≠ [] := by
    have := h0.1
    subst hT
    cases rooted <;> simp [this]
  have hsum : ¬ (([T, str "generated"].map List.length).sum = 0) := by
    have : (str "generated").length = 9 := by decide
    simp [this]
  have e : str "/generated" = path.slash :: str "generated" := by decide
  have hj : path.joinLoop [T, str "generated"] [] = T ++ str "/generated" := by
    have hlen : 0 < T.length := List.length_pos.mpr hne
    simp [path.joinLoop, hne, hlen, e]
  rw [path.Join, if_neg hsum, hj]
  have hform : T ++ str "/generated" = (if rooted = true then [path.slash] else []) ++ g0
      ++ (gs ++ [str "generated"]).flatMap (fun g => path.slash :: g) := by
    rw [hT, e]; simp
  rw [hform]
  apply path.Clean_names rooted g0 (gs ++ [str "generated"]) h0
  intro g hg
  rcases List.mem_append.mp hg with hg | hg
  · exact h g hg
  · have : g = str "generated" := by simpa using hg
    rw [this]; exact hgen

/-- C4, as stated, fails: for the temp root `/tmp/` the default output folder
is `/tmp/generated`, not the root followed by `/generated`. -/
theorem C4_trailing_slash_counterexample :
    AutoRestOptions.new.OutputFolder { TempDir := str "/tmp/", isPrintWide := fun _ => false }
        = (str "/tmp/generated", false)
      ∧ (AutoRestOptions.new.OutputFolder
          { TempDir := str "/tmp/", isPrintWide := fun _ => false }).1
        ≠ str "/tmp/" ++ str "/generated" := by
  decide

/-- C4, amended: for an options value whose output folder is not set and
every temp root `T`, `OutputFolder()` returns
`(path.Join(T, "generated"), false)`; when `T` is a clean path (names
separated by single slashes, with or without a leading slash, none of them
empty, `.` or `..`, no trailing slash) this is `T` followed by `/generated`;
and after `SetOutputFolder(p)` it returns `(p, true)` with `p` unchanged. -/
theorem C4_output_folder (P : Platform) (s : AutoRestOptions) (p : GoString)
    (hs : s.outputFolder = none) :
    s.OutputFolder P = (path.Join [P.TempDir, str "generated"], false)
      ∧ (∀ (rooted : Bool) (g0 : GoString) (gs : List GoString),
          path.isName g0 → (∀ g ∈ gs, path.isName g) →
          P.TempDir = (if rooted = true then [path.slash] else []) ++ g0
            ++ gs.flatMap (fun g => path.slash :: g) →
          s.OutputFolder P = (P.TempDir ++ str "/generated", false))
      ∧ (s.SetOutputFolder p).OutputFolder P = (p, true) := by
  refine ⟨?_, ?_, ?_⟩
  · simp [AutoRestOptions.OutputFolder, hs]
  · intro rooted g0 gs h0 h hT
    have hj := path.Join_generated rooted g0 gs h0 h P.TempDir hT
    simp [AutoRestOptions.OutputFolder, hs, hj]
  · simp [AutoRestOptions.OutputFolder, AutoRestOptions.SetOutputFolder]

/-- C4, amended, at the temp root `/tmp` and the folder `out dir/`. -/
theorem C4_output_folder_witness :
    AutoRestOptions.new.OutputFolder unixPlatform
        = (path.Join [str "/tmp", str "generated"], false)
      ∧ AutoRestOptions.new.OutputFolder unixPlatform = (str "/tmp/generated", false)
      ∧ (AutoRestOptions.new.SetOutputFolder (str "out dir/")).OutputFolder unixPlatform
        = (str "out dir/", true) :=
  have h := C4_output_folder unixPlatform AutoRestOptions.new (str "out dir/") (by rfl)
  ⟨h.1, h.2.1 true (str "tmp") [] (by decide) (by simp) (by decide), h.2.2⟩

/-! ### The flags of the command line -/

theorem use_not_in_autorest : ¬ (str "--use=" <+: str "autorest") := by decide

theorem tag_not_in_autorest : ¬ (str "--tag=" <+: str "autorest") := by decide

theorem use_not_in_tag (q : GoString) : ¬ (str "--use=" <+: str "--tag=" ++ q) := by
  have e1 : str "--use=" = [45, 45, 117, 115, 101, 61] := by decide
  have e2 : str "--tag=" = [45, 45, 116, 97, 103, 61] := by decide
  rw [e1, e2]
  simp [List.cons_prefix_cons]

theorem tag_not_in_use (q : GoString) : ¬ (str "--tag=" <+: str "--use=" ++ q) := by
  have e1 : str "--use=" = [45, 45, 117, 115, 101, 61] := by decide
  have e2 : str "--tag=" = [45, 45, 116, 97, 103, 61] := by decide
  rw [e1, e2]
  simp [List.cons_prefix_cons]

theorem use_not_in_output_folder (q : GoString) :
    ¬ (str "--use=" <+: str "--output-folder=" ++ q) := by
  have e1 : str "--use=" = [45, 45, 117, 115, 101, 61] := by decide
  have e2 : str "--output-folder=" = 45 :: 45 :: 111 :: str "utput-folder=" := by decide
  rw [e1, e2]
  simp [List.cons_prefix_cons]

theorem tag_not_in_output_folder (q : GoString) :
    ¬ (str "--tag=" <+: str "--output-folder=" ++ q) := by
  have e1 : str "--tag=" = [45, 45, 116, 97, 103, 61] := by decide
  have e2 : str "--output-folder=" = 45 :: 45 :: 111 :: str "utput-folder=" := by decide
  rw [e1, e2]
  simp [List.cons_prefix_cons]

/-- C5, as stated, fails: with use not set, the input `--use=x` is an
argument of the vector that begins with `--use=`. -/
theorem C5_input_counterexample :
    (∃ a ∈ (InvokeAutoRest.invoker unixPlatform { timeout := none } AutoRestLanguageGo
        [str "--use=x"] AutoRestOptions.new).Args, str "--use=" <+: a)
      ∧ AutoRestOptions.new.Use.2 = false := by
  refine ⟨⟨str "--use=x", ?_, ?_⟩, rfl⟩
  · rw [invoker_Args]; simp
  · decide

/-- C5, amended: when neither the language token nor any input begins with
`--use=` or `--tag=`, the argument vector contains an argument beginning with
`--use=` exactly when use is explicitly set, and one beginning with `--tag=`
exactly when tag is explicitly set; a set value is passed quoted, and an
explicitly set empty string as `--use=""` / `--tag=""`. -/
theorem C5_use_tag_presence (P : Platform) (ctx : Context) (L : AutoRestLanguage)
    (xs : List GoString) (o : AutoRestOptions)
    (hL : ¬ (str "--use=" <+: L) ∧ ¬ (str "--tag=" <+: L))
    (hxs : ∀ x ∈ xs, ¬ (str "--use=" <+: x) ∧ ¬ (str "--tag=" <+: x)) :
    ((∃ a ∈ (InvokeAutoRest.invoker P ctx L xs o).Args, str "--use=" <+: a) ↔ o.Use.2 = true)
      ∧ ((∃ a ∈ (InvokeAutoRest.invoker P ctx L xs o).Args, str "--tag=" <+: a) ↔ o.Tag.2 = true)
      ∧ (∀ v, o.use = some v →
          str "--use=" ++ strconv.Quote P.isPrintWide v ∈ (InvokeAutoRest.invoker P ctx L xs o).Args)
      ∧ (∀ v, o.tag = some v →
          str "--tag=" ++ strconv.Quote P.isPrintWide v ∈ (InvokeAutoRest.invoker P ctx L xs o).Args)
      ∧ (o.use = some (str "") →
          str "--use=\"\"" ∈ (InvokeAutoRest.invoker P ctx L xs o).Args)
      ∧ (o.tag = some (str "") →
          str "--tag=\"\"" ∈ (InvokeAutoRest.invoker P ctx L xs o).Args) := by
  have hq : strconv.Quote P.isPrintWide (str "") = str "\"\"" := by rfl
  have eu : str "--use=\"\"" = str "--use=" ++ str "\"\"" := by decide
  have et : str "--tag=\"\"" = str "--tag=" ++ str "\"\"" := by decide
  have hxu : ∀ x ∈ xs, ¬ (str "--use=" <+: x) := fun x hx => (hxs x hx).1
  have hxt : ∀ x ∈ xs, ¬ (str "--tag=" <+: x) := fun x hx => (hxs x hx).2
  rw [invoker_Args]
  refine ⟨?_, ?_, ?_, ?_, ?_, ?_⟩
  · cases hu : o.use <;> cases ht : o.tag <;>
      simp [AutoRestOptions.Use, AutoRestOptions.Tag, hu, ht, use_not_in_autorest, hL.1,
        use_not_in_tag, use_not_in_output_folder, List.prefix_append] <;>
      exact fun a ha => hxu a ha
  · cases hu : o.use <;> cases ht : o.tag <;>
      simp [AutoRestOptions.Use, AutoRestOptions.Tag, hu, ht, tag_not_in_autorest, hL.2,
        tag_not_in_use, tag_not_in_output_folder, List.prefix_append] <;>
      exact fun a ha => hxt a ha
  · intro v hv
    simp [AutoRestOptions.Use, hv]
  · intro v hv
    simp [AutoRestOptions.Tag, hv]
  · intro hv
    simp [AutoRestOptions.Use, hv, hq, eu]
  · intro hv
    simp [AutoRestOptions.Tag, hv, hq, et]

/-- C5, amended, at language Go, the input `specA` and use set to the empty
string. -/
theorem C5_use_tag_presence_witness :
    ((∃ a ∈ (InvokeAutoRest.invoker unixPlatform { timeout := none } AutoRestLanguageGo
          [str "specA"] (AutoRestOptions.new.SetUse (str ""))).Args, str "--use=" <+: a)
        ↔ (AutoRestOptions.new.SetUse (str "")).Use.2 = true)
      ∧ ((∃ a ∈ (InvokeAutoRest.invoker unixPlatform { timeout := none } AutoRestLanguageGo
          [str "specA"] (AutoRestOptions.new.SetUse (str ""))).Args, str "--tag=" <+: a)
        ↔ (AutoRestOptions.new.SetUse (str "")).Tag.2 = true)
      ∧ str "--use=\"\"" ∈ (InvokeAutoRest.invoker unixPlatform { timeout := none }
          AutoRestLanguageGo [str "specA"] (AutoRestOptions.new.SetUse (str ""))).Args :=
  have h := C5_use_tag_presence unixPlatform { timeout := none } AutoRestLanguageGo
    [str "specA"] (AutoRestOptions.new.SetUse (str "")) (by decide) (by decide)
  ⟨h.1, h.2.1, h.2.2.2.2.1 rfl⟩

/-! ### handleGenerate -/

/-- A path is within itself. -/
theorem isWithin_self (p : GoString) : isWithin p p = true := by
  simp [isWithin]

/-- C6, as stated, fails: the directory `/tmp/full_autorest1` is allocated,
the tool exits with code zero, the removal of the directory fails and leaves
it; the handler has called `os.RemoveAll` on it and returns, and the
directory is still on disk. -/
theorem C6_failed_removal_counterexample :
    Event.removeAll (str "/tmp/full_autorest1")
        ∈ (handleGenerate unixPlatform (Except.ok (str "/tmp/full_autorest1"))
            (fun _ => { outcome := ProcessOutcome.exited 0 none, fs := id, output := [] })
            { err := some { text := str "permission denied", exitCode := none },
              left := fun _ => true }
            (Writer.other 1) { paths := [], trace := [] }).trace
      ∧ str "/tmp/full_autorest1"
        ∈ (handleGenerate unixPlatform (Except.ok (str "/tmp/full_autorest1"))
            (fun _ => { outcome := ProcessOutcome.exited 0 none, fs := id, output := [] })
            { err := some { text := str "permission denied", exitCode := none },
              left := fun _ => true }
            (Writer.other 1) { paths := [], trace := [] }).paths := by
  constructor
  · simp [handleGenerate, TempDir, InvokeAutoRest, Cmd.Run, RemoveAll, logPrint, World.emit,
      outputEvents]
  · simp [handleGenerate, TempDir, InvokeAutoRest, Cmd.Run, RemoveAll, logPrint, World.emit]

/-- C6, amended: on every path on which the temporary directory `d` was
allocated, whatever the run of the tool does (its error, its files, its
output) and whatever the outcome of the removal is, the effects of
`handleGenerate` are, in this order: the allocation of `d`, the invocation,
the log of its error, the call of `os.RemoveAll` on `d` and on nothing else,
the cancel. The error of the removal is discarded: what is left on disk is
what the removal left, and when the removal succeeds neither `d` nor
anything below it is on disk after the handler returns. -/
theorem C6_tempdir_removal (P : Platform) (run : Cmd → RunResult) (rm : RemoveResult)
    (resp : Writer) (w : World) (d : GoString) :
    (handleGenerate P (Except.ok d) run rm resp w).trace =
        w.trace
          ++ [Event.logPrint (str "request received: generate"),
              Event.withTimeout autorestTimeout,
              Event.tempDir (str "") (str "full_autorest") (some d),
              Event.run (handleGenerate.cmd P d resp)]
          ++ outputEvents (handleGenerate.cmd P d resp) (run (handleGenerate.cmd P d resp)).output
          ++ [Event.logPrint (Sprint [Arg.s (str "err: "),
                Arg.e (run (handleGenerate.cmd P d resp)).err]),
              Event.removeAll d,
              Event.cancel]
      ∧ (∀ p, Event.removeAll p ∈
            outputEvents (handleGenerate.cmd P d resp) (run (handleGenerate.cmd P d resp)).output
          → False)
      ∧ (handleGenerate P (Except.ok d) run rm resp w).paths =
          ((run (handleGenerate.cmd P d resp)).fs (d :: w.paths)).filter
            (fun q => !isWithin d q || (rm.err.isSome && rm.left q))
      ∧ (rm.err = none → d ∉ (handleGenerate P (Except.ok d) run rm resp w).paths)
      ∧ (rm.err = none → ∀ q, isWithin d q = true →
          q ∉ (handleGenerate P (Except.ok d) run rm resp w).paths) := by
  have hp : (handleGenerate P (Except.ok d) run rm resp w).paths =
      ((run (handleGenerate.cmd P d resp)).fs (d :: w.paths)).filter
        (fun q => !isWithin d q || (rm.err.isSome && rm.left q)) := rfl
  refine ⟨?_, ?_, hp, ?_, ?_⟩
  · simp [handleGenerate, TempDir, InvokeAutoRest, Cmd.Run, RemoveAll, logPrint, World.emit,
      handleGenerate.cmd, handleGenerate.options, Sprint, doPrint, Arg.isString, Arg.format]
  · intro p hmem
    simp [outputEvents] at hmem
  · intro hrm
    rw [hp]
    simp [List.mem_filter, isWithin_self, hrm]
  · intro hrm q hq
    rw [hp]
    simp [List.mem_filter, hq, hrm]

/-- C6, amended, at the directory `/tmp/full_autorest1`, a tool that exits
with code 3 and leaves a file in the directory, and a removal that
succeeds. -/
theorem C6_tempdir_removal_witness :
    str "/tmp/full_autorest1"
        ∉ (handleGenerate unixPlatform (Except.ok (str "/tmp/full_autorest1"))
            (fun _ => { outcome := ProcessOutcome.exited 3 none,
                        fs := fun ps => str "/tmp/full_autorest1/a.go" :: ps, output := [] })
            { err := none, left := fun _ => true }
            (Writer.other 1) { paths := [str "/etc"], trace := [] }).paths
      ∧ str "/tmp/full_autorest1/a.go"
        ∉ (handleGenerate unixPlatform (Except.ok (str "/tmp/full_autorest1"))
            (fun _ => { outcome := ProcessOutcome.exited 3 none,
                        fs := fun ps => str "/tmp/full_autorest1/a.go" :: ps, output := [] })
            { err := none, left := fun _ => true }
            (Writer.other 1) { paths := [str "/etc"], trace := [] }).paths :=
  have h := C6_tempdir_removal unixPlatform
    (fun _ => { outcome := ProcessOutcome.exited 3 none,
                fs := fun ps => str "/tmp/full_autorest1/a.go" :: ps, output := [] })
    { err := none, left := fun _ => true }
    (Writer.other 1) { paths := [str "/etc"], trace := [] } (str "/tmp/full_autorest1")
  ⟨h.2.2.2.1 rfl, h.2.2.2.2 rfl (str "/tmp/full_autorest1/a.go") (by decide)⟩

/-- C7: when allocating the temporary directory fails with the error `e`,
the effects of `handleGenerate` are the request log, the context, the failed
allocation, `WriteHeader(500)`, the write of the text of `e` and the cancel:
no command is run and nothing is removed; the response has status 500 and
the body is exactly the text of `e`; the paths on disk are unchanged. -/
theorem C7_setup_failure (P : Platform) (run : Cmd → RunResult)
    (rm : RemoveResult) (resp : Writer) (w : World)
    (e : GoError) :
    (handleGenerate P (Except.error e) run rm resp w).trace =
        w.trace
          ++ [Event.logPrint (str "request received: generate"),
              Event.withTimeout autorestTimeout,
              Event.tempDir (str "") (str "full_autorest") none,
              Event.writeHeader resp 500,
              Event.write resp e.text,
              Event.cancel]
      ∧ response resp
          [Event.logPrint (str "request received: generate"),
            Event.withTimeout autorestTimeout,
            Event.tempDir (str "") (str "full_autorest") none,
            Event.writeHeader resp 500,
            Event.write resp e.text,
            Event.cancel] (none, []) = (some 500, e.text)
      ∧ (∀ c, Event.run c ∉ (handleGenerate P (Except.error e) run rm resp w).trace.drop
            w.trace.length)
      ∧ (∀ p, Event.removeAll p ∉ (handleGenerate P (Except.error e) run rm resp w).trace.drop
            w.trace.length)
      ∧ (handleGenerate P (Except.error e) run rm resp w).paths = w.paths := by
  have ht : (handleGenerate P (Except.error e) run rm resp w).trace =
      w.trace
        ++ [Event.logPrint (str "request received: generate"),
            Event.withTimeout autorestTimeout,
            Event.tempDir (str "") (str "full_autorest") none,
            Event.writeHeader resp 500,
            Event.write resp e.text,
            Event.cancel] := by
    simp [handleGenerate, TempDir, WriteHeader, Fprint, logPrint, World.emit,
      StatusInternalServerError, Sprint, doPrint, Arg.isString, Arg.format]
  refine ⟨ht, ?_, ?_, ?_, rfl⟩
  · simp [response]
  · intro c
    rw [ht, List.drop_left]
    simp
  · intro p
    rw [ht, List.drop_left]
    simp

/-! ### The options model: frame and algebra -/

/-- C13: every setter and clear-operation returns the object with its own
field updated and changes nothing else: the getters of the other four fields
return what they returned before. -/
theorem C13_setters_frame (P : Platform) (s : AutoRestOptions) (a : GoString) (x : Writer) :
    (s.SetOutputFolder a).outputFolder = some a
      ∧ (s.SetOutputFolder a).Tag = s.Tag
      ∧ (s.SetOutputFolder a).Use = s.Use
      ∧ (s.SetOutputFolder a).Stdout = s.Stdout
      ∧ (s.SetOutputFolder a).Stderr = s.Stderr
      ∧ (s.SetTag a).tag = some a
      ∧ (s.SetTag a).OutputFolder P = s.OutputFolder P
      ∧ (s.SetTag a).Use = s.Use
      ∧ (s.SetTag a).Stdout = s.Stdout
      ∧ (s.SetTag a).Stderr = s.Stderr
      ∧ (s.ClearTag).tag = none
      ∧ (s.ClearTag).OutputFolder P = s.OutputFolder P
      ∧ (s.ClearTag).Use = s.Use
      ∧ (s.ClearTag).Stdout = s.Stdout
      ∧ (s.ClearTag).Stderr = s.Stderr
      ∧ (s.SetUse a).use = some a
      ∧ (s.SetUse a).OutputFolder P = s.OutputFolder P
      ∧ (s.SetUse a).Tag = s.Tag
      ∧ (s.SetUse a).Stdout = s.Stdout
      ∧ (s.SetUse a).Stderr = s.Stderr
      ∧ (s.ClearUse).use = none
      ∧ (s.ClearUse).OutputFolder P = s.OutputFolder P
      ∧ (s.ClearUse).Tag = s.Tag
      ∧ (s.ClearUse).Stdout = s.Stdout
      ∧ (s.ClearUse).Stderr = s.Stderr
      ∧ (s.SetStdout x).stdout = x
      ∧ (s.SetStdout x).OutputFolder P = s.OutputFolder P
      ∧ (s.SetStdout x).Tag = s.Tag
      ∧ (s.SetStdout x).Use = s.Use
      ∧ (s.SetStdout x).Stderr = s.Stderr
      ∧ (s.ClearStdout).stdout = Writer.nil
      ∧ (s.ClearStdout).OutputFolder P = s.OutputFolder P
      ∧ (s.ClearStdout).Tag = s.Tag
      ∧ (s.ClearStdout).Use = s.Use
      ∧ (s.ClearStdout).Stderr = s.Stderr
      ∧ (s.SetStderr x).stderr = x
      ∧ (s.SetStderr x).OutputFolder P = s.OutputFolder P
      ∧ (s.SetStderr x).Tag = s.Tag
      ∧ (s.SetStderr x).Use = s.Use
      ∧ (s.SetStderr x).Stdout = s.Stdout
      ∧ (s.ClearStderr).stderr = Writer.nil
      ∧ (s.ClearStderr).OutputFolder P = s.OutputFolder P
      ∧ (s.ClearStderr).Tag = s.Tag
      ∧ (s.ClearStderr).Use = s.Use
      ∧ (s.ClearStderr).Stdout = s.Stdout := by
  refine ⟨?_, ?_, ?_, ?_, ?_, ?_, ?_, ?_, ?_, ?_, ?_, ?_, ?_, ?_, ?_, ?_, ?_, ?_, ?_, ?_, ?_, ?_, ?_, ?_, ?_, ?_, ?_, ?_, ?_, ?_, ?_, ?_, ?_, ?_, ?_, ?_, ?_, ?_, ?_, ?_, ?_, ?_, ?_, ?_, ?_⟩ <;> rfl

/-- C17: a second set overwrites the first, clearing twice is clearing once,
and a clear after a set is the clear: for tag, use, stdout and stderr; and a
second `SetOutputFolder` overwrites the first. -/
theorem C17_last_write_wins (s : AutoRestOptions) (a b : GoString) (x y : Writer) :
    (s.SetTag a).SetTag b = s.SetTag b
      ∧ s.ClearTag.ClearTag = s.ClearTag
      ∧ (s.SetTag a).ClearTag = s.ClearTag
      ∧ (s.SetUse a).SetUse b = s.SetUse b
      ∧ s.ClearUse.ClearUse = s.ClearUse
      ∧ (s.SetUse a).ClearUse = s.ClearUse
      ∧ (s.SetStdout x).SetStdout y = s.SetStdout y
      ∧ s.ClearStdout.ClearStdout = s.ClearStdout
      ∧ (s.SetStdout x).ClearStdout = s.ClearStdout
      ∧ (s.SetStderr x).SetStderr y = s.SetStderr y
      ∧ s.ClearStderr.ClearStderr = s.ClearStderr
      ∧ (s.SetStderr x).ClearStderr = s.ClearStderr
      ∧ (s.SetOutputFolder a).SetOutputFolder b = s.SetOutputFolder b := by
  refine ⟨?_, ?_, ?_, ?_, ?_, ?_, ?_, ?_, ?_, ?_, ?_, ?_, ?_⟩ <;> rfl

/-- C16: two options values that agree on the results of `OutputFolder`,
`Tag` and `Use` give the same argument vector, whatever their sinks are; in
particular replacing the sinks of an options value does not change the
vector. -/
theorem C16_args_independent_of_sinks (P : Platform) (ctx : Context) (L : AutoRestLanguage)
    (xs : List GoString) (o1 o2 : AutoRestOptions)
    (hf : o1.OutputFolder P = o2.OutputFolder P) (ht : o1.Tag = o2.Tag) (hu : o1.Use = o2.Use) :
    (InvokeAutoRest.invoker P ctx L xs o1).Args = (InvokeAutoRest.invoker P ctx L xs o2).Args
      ∧ ∀ so se : Writer,
          (InvokeAutoRest.invoker P ctx L xs ((o1.SetStdout so).SetStderr se)).Args
            = (InvokeAutoRest.invoker P ctx L xs o1).Args := by
  refine ⟨?_, ?_⟩
  · rw [invoker_Args, invoker_Args, hf, ht, hu]
  · intro so se
    rw [invoker_Args, invoker_Args]
    rfl

/-- C16 at the options with tag `v1`, once without sinks and once with the
writer number 1 as stdout and `ioutil.Discard` as stderr. -/
theorem C16_args_independent_of_sinks_witness :
    (InvokeAutoRest.invoker unixPlatform { timeout := none } AutoRestLanguageGo [str "specA"]
        (AutoRestOptions.new.SetTag (str "v1"))).Args
      = (InvokeAutoRest.invoker unixPlatform { timeout := none } AutoRestLanguageGo [str "specA"]
        (((AutoRestOptions.new.SetTag (str "v1")).SetStdout (Writer.other 1)).SetStderr
          Writer.Discard)).Args :=
  (C16_args_independent_of_sinks unixPlatform { timeout := none } AutoRestLanguageGo
    [str "specA"] (AutoRestOptions.new.SetTag (str "v1"))
    (((AutoRestOptions.new.SetTag (str "v1")).SetStdout (Writer.other 1)).SetStderr
      Writer.Discard) rfl rfl rfl).1

/-! ### The invocation made by handleGenerate -/

/-- The effects of `handleGenerate` when the temporary directory was
allocated. -/
theorem handleGenerate_trace_ok (P : Platform) (run : Cmd → RunResult)
    (rm : RemoveResult) (resp : Writer)
    (w : World) (d : GoString) :
    (handleGenerate P (Except.ok d) run rm resp w).trace =
      w.trace
        ++ ([Event.logPrint (str "request received: generate"),
            Event.withTimeout autorestTimeout,
            Event.tempDir (str "") (str "full_autorest") (some d),
            Event.run (handleGenerate.cmd P d resp)]
          ++ outputEvents (handleGenerate.cmd P d resp) (run (handleGenerate.cmd P d resp)).output
          ++ [Event.logPrint (Sprint [Arg.s (str "err: "),
                Arg.e (run (handleGenerate.cmd P d resp)).err]),
              Event.removeAll d,
              Event.cancel]) := by
  simp [handleGenerate, TempDir, InvokeAutoRest, Cmd.Run, RemoveAll, logPrint, World.emit,
    handleGenerate.cmd, handleGenerate.options, Sprint, doPrint, Arg.isString, Arg.format]

/-- The writes of a process are not `run` effects. -/
theorem outputEvents_cmd (cmd : Cmd) (output : List (Bool × GoString)) :
    (outputEvents cmd output).filterMap Event.cmd = [] := by
  induction output with
  | nil => rfl
  | cons c cs ih =>
    simp only [outputEvents, List.map_cons, List.filterMap_cons] at ih ⊢
    simp [Event.cmd, ih]

/-- C12: for every allocated directory `d` and every response writer `resp`
(a writer, not the nil interface value), `handleGenerate` runs exactly one
command; its options value has `OutputFolder() = (d, true)`,
`Stdout() = (resp, true)`, `Stderr() = (resp, true)`, tag and use unset; the
arguments after the program name are `--go`, `--output-folder=<quoted d>`
and the hardcoded specification URL; both streams of the command are bound
to `resp`. -/
theorem C12_single_invocation (P : Platform) (run : Cmd → RunResult)
    (rm : RemoveResult) (resp : Writer)
    (w : World) (d : GoString) (hresp : resp ≠ Writer.nil) :
    ((handleGenerate P (Except.ok d) run rm resp w).trace.drop w.trace.length).filterMap Event.cmd
        = [InvokeAutoRest.invoker P { timeout := some autorestTimeout } AutoRestLanguageGo
            [specification] (handleGenerate.options d resp)]
      ∧ (handleGenerate.options d resp).OutputFolder P = (d, true)
      ∧ (handleGenerate.options d resp).Stdout = (resp, true)
      ∧ (handleGenerate.options d resp).Stderr = (resp, true)
      ∧ (handleGenerate.options d resp).Tag = (str "", false)
      ∧ (handleGenerate.options d resp).Use = (str "", false)
      ∧ (InvokeAutoRest.invoker P { timeout := some autorestTimeout } AutoRestLanguageGo
            [specification] (handleGenerate.options d resp)).Args
          = [str "autorest", str "--go",
              str "--output-folder=" ++ strconv.Quote P.isPrintWide d,
              str ("https://github.com/Azure/azure-rest-api-specs/blob/" ++
                "27c79e5cf0a222441b18828ae81551308e84c758/specification/batch/" ++
                "resource-manager/readme.md")]
      ∧ (InvokeAutoRest.invoker P { timeout := some autorestTimeout } AutoRestLanguageGo
            [specification] (handleGenerate.options d resp)).Stdout = resp
      ∧ (InvokeAutoRest.invoker P { timeout := some autorestTimeout } AutoRestLanguageGo
            [specification] (handleGenerate.options d resp)).Stderr = resp := by
  have hO : (handleGenerate.options d resp).OutputFolder P = (d, true) := rfl
  have hT : (handleGenerate.options d resp).Tag = (str "", false) := rfl
  have hU : (handleGenerate.options d resp).Use = (str "", false) := rfl
  have hso : (handleGenerate.options d resp).Stdout = (resp, true) := by
    simp [handleGenerate.options, AutoRestOptions.Stdout, AutoRestOptions.SetStdout,
      AutoRestOptions.SetStderr, hresp]
  have hse : (handleGenerate.options d resp).Stderr = (resp, true) := by
    simp [handleGenerate.options, AutoRestOptions.Stderr, AutoRestOptions.SetStderr, hresp]
  refine ⟨?_, hO, hso, hse, hT, hU, ?_, ?_, ?_⟩
  · rw [handleGenerate_trace_ok, List.drop_left]
    simp [List.filterMap_append, outputEvents_cmd, Event.cmd, handleGenerate.cmd]
  · rw [invoker_Args, hO, hT, hU]
    have e : specification = str ("https://github.com/Azure/azure-rest-api-specs/blob/" ++
        "27c79e5cf0a222441b18828ae81551308e84c758/specification/batch/" ++
        "resource-manager/readme.md") := rfl
    simp [AutoRestLanguageGo, e]
  · show (handleGenerate.options d resp).Stdout.1 = resp
    rw [hso]
  · show (handleGenerate.options d resp).Stderr.1 = resp
    rw [hse]

/-- C12 at the directory `/tmp/full_autorest1` and the writer number 1. -/
theorem C12_single_invocation_witness :
    (InvokeAutoRest.invoker unixPlatform { timeout := some autorestTimeout } AutoRestLanguageGo
          [specification] (handleGenerate.options (str "/tmp/full_autorest1") (Writer.other 1))).Args
        = [str "autorest", str "--go",
            str "--output-folder=" ++ strconv.Quote unixPlatform.isPrintWide
              (str "/tmp/full_autorest1"),
            str ("https://github.com/Azure/azure-rest-api-specs/blob/" ++
              "27c79e5cf0a222441b18828ae81551308e84c758/specification/batch/" ++
              "resource-manager/readme.md")]
      ∧ (InvokeAutoRest.invoker unixPlatform { timeout := some autorestTimeout }
          AutoRestLanguageGo [specification]
          (handleGenerate.options (str "/tmp/full_autorest1") (Writer.other 1))).Stdout
        = Writer.other 1 :=
  have h := C12_single_invocation unixPlatform
    (fun _ => { outcome := ProcessOutcome.exited 0 none, fs := id, output := [] })
    { err := none, left := fun _ => false }
    (Writer.other 1) { paths := [], trace := [] } (str "/tmp/full_autorest1") (by decide)
  ⟨h.2.2.2.2.2.2.1, h.2.2.2.2.2.2.2.1⟩

/-! ### Quoting of plain values -/

/-- The loop of `strconv.Quote` copies a plain string. -/
theorem strconv.quoteLoop_plain (wide : Nat → Bool) (v : GoString) (hv : isPlain v) :
    ∀ fuel, v.length ≤ fuel → strconv.quoteLoop wide 34 fuel v = v := by
  induction v with
  | nil => intro fuel _; cases fuel <;> rfl
  | cons b tl ih =>
    intro fuel hfuel
    obtain ⟨f, rfl⟩ : ∃ f, fuel = f + 1 := ⟨fuel - 1, by simp at hfuel; omega⟩
    have hb := hv b (by simp)
    have htl : isPlain tl := fun x hx => hv x (by simp [hx])
    have h1 : ¬ (b.val ≥ utf8.RuneSelf) := by simp [utf8.RuneSelf]; omega
    have h2 : ¬ (b.val = utf8.RuneError) := by simp [utf8.RuneError]; omega
    have h3 : strconv.appendEscapedRune wide b.val 34 = [b] := by
      have hp : strconv.IsPrint wide b.val = true := by
        have hle : b.val ≤ 0xFF := by omega
        have hr : 0x20 ≤ b.val ∧ b.val ≤ 0x7E := ⟨hb.1, hb.2.1⟩
        rw [strconv.IsPrint, if_pos hle, if_pos hr]
      have hq : ¬ (b.val = (34 : Byte).val ∨ b.val = 92) := by
        rintro (h | h)
        · exact hb.2.2.1 h
        · exact hb.2.2.2 h
      have hle : b.val ≤ 0x7F := by omega
      have hbyte : byte b.val = b := by
        apply Fin.ext
        simp only [byte]
        omega
      rw [strconv.appendEscapedRune, if_neg hq, if_pos hp, utf8.AppendRune, if_pos hle, hbyte]
    rw [strconv.quoteLoop]
    simp only [h1, if_false, h2, and_false, h3, List.drop_succ_cons, List.drop_zero,
      List.singleton_append]
    rw [ih htl f (by simp at hfuel; omega)]

/-- Function `strconv.Quote` puts a plain string between double quotes. -/
theorem strconv.Quote_plain (wide : Nat → Bool) (v : GoString) (hv : isPlain v) :
    strconv.Quote wide v = str "\"" ++ v ++ str "\"" := by
  have e : str "\"" = [34] := by decide
  rw [strconv.Quote, strconv.quoteLoop_plain wide v hv v.length (Nat.le_refl _), e]
  rfl

/-- C14: an explicitly set use, tag or output-folder value `v` made only of
printable ASCII characters other than the double quote and the backslash
(spaces allowed) is passed as one element of the argument vector, at its
place: the flag name, `=`, a double quote, `v` verbatim and a double
quote. -/
theorem C14_plain_value_single_token (P : Platform) (ctx : Context) (L : AutoRestLanguage)
    (xs : List GoString) (o : AutoRestOptions) (v : GoString) (hv : isPlain v) :
    (o.use = some v →
        (InvokeAutoRest.invoker P ctx L xs o).Args =
          [str "autorest", L, str "--use=\"" ++ v ++ str "\""]
            ++ (if o.Tag.2 = true then [str "--tag=" ++ strconv.Quote P.isPrintWide o.Tag.1]
                else [])
            ++ [str "--output-folder=" ++ strconv.Quote P.isPrintWide (o.OutputFolder P).1]
            ++ xs)
      ∧ (o.tag = some v →
        (InvokeAutoRest.invoker P ctx L xs o).Args =
          [str "autorest", L]
            ++ (if o.Use.2 = true then [str "--use=" ++ strconv.Quote P.isPrintWide o.Use.1]
                else [])
            ++ [str "--tag=\"" ++ v ++ str "\""]
            ++ [str "--output-folder=" ++ strconv.Quote P.isPrintWide (o.OutputFolder P).1]
            ++ xs)
      ∧ (o.outputFolder = some v →
        (InvokeAutoRest.invoker P ctx L xs o).Args =
          [str "autorest", L]
            ++ (if o.Use.2 = true then [str "--use=" ++ strconv.Quote P.isPrintWide o.Use.1]
                else [])
            ++ (if o.Tag.2 = true then [str "--tag=" ++ strconv.Quote P.isPrintWide o.Tag.1]
                else [])
            ++ [str "--output-folder=\"" ++ v ++ str "\""]
            ++ xs) := by
  have hq := strconv.Quote_plain P.isPrintWide v hv
  have eu : str "--use=\"" = str "--use=" ++ str "\"" := by decide
  have et : str "--tag=\"" = str "--tag=" ++ str "\"" := by decide
  have eo : str "--output-folder=\"" = str "--output-folder=" ++ str "\"" := by decide
  refine ⟨?_, ?_, ?_⟩
  · intro h
    rw [invoker_Args]
    simp [AutoRestOptions.Use, h, hq, eu]
  · intro h
    rw [invoker_Args]
    simp [AutoRestOptions.Tag, h, hq, et]
  · intro h
    rw [invoker_Args]
    simp [AutoRestOptions.OutputFolder, h, hq, eo]

/-- The string `a b` is plain. -/
theorem isPlain_a_b : isPlain (str "a b") := by
  have e : str "a b" = [97, 32, 98] := by decide
  rw [e]
  intro b hb
  simp at hb
  rcases hb with rfl | rfl | rfl <;> decide

/-- C14 at the value `a b` for use, tag and output folder. -/
theorem C14_plain_value_single_token_witness :
    (InvokeAutoRest.invoker unixPlatform { timeout := none } AutoRestLanguageGo [str "specA"]
        (((AutoRestOptions.new.SetUse (str "a b")).SetTag (str "a b")).SetOutputFolder
          (str "a b"))).Args
      = [str "autorest", str "--go", str "--use=\"a b\"", str "--tag=\"a b\"",
          str "--output-folder=\"a b\"", str "specA"] :=
  (C14_plain_value_single_token unixPlatform { timeout := none } AutoRestLanguageGo
    [str "specA"]
    (((AutoRestOptions.new.SetUse (str "a b")).SetTag (str "a b")).SetOutputFolder (str "a b"))
    (str "a b") isPlain_a_b).1 rfl

/-! ### The start command -/

/-- C15, the code: when `ListenAndServe` returns a non-nil error, `Run`
registers the handler, logs the port and calls `ListenAndServe`, and logs
nothing after it: the message `unable to start server: ` followed by the
error is not logged. It is logged when the error is nil. -/
theorem C15_error_not_logged (port : Int) (e : GoError) (w : World) :
    (startCmd.Run port (fun _ => some e) w).trace =
        w.trace
          ++ [Event.handleFunc (str "/generate"),
              Event.logPrint (str "starting full_autorest server on port " ++ str (toString port)),
              Event.listenAndServe (str ":" ++ str (toString port))]
      ∧ Event.logPrint (str "unable to start server: " ++ e.text)
          ∉ (startCmd.Run port (fun _ => some e) w).trace.drop w.trace.length
      ∧ (startCmd.Run port (fun _ => none) w).trace =
        w.trace
          ++ [Event.handleFunc (str "/generate"),
              Event.logPrint (str "starting full_autorest server on port " ++ str (toString port)),
              Event.listenAndServe (str ":" ++ str (toString port)),
              Event.logPrint (str "unable to start server: <nil>")] := by
  have ht : (startCmd.Run port (fun _ => some e) w).trace =
      w.trace
        ++ [Event.handleFunc (str "/generate"),
            Event.logPrint (str "starting full_autorest server on port " ++ str (toString port)),
            Event.listenAndServe (str ":" ++ str (toString port))] := by
    simp [startCmd.Run, logPrint, World.emit, Sprint, doPrint, Arg.isString, Arg.format]
  have e1 : str "starting full_autorest server on port "
      = 115 :: str "tarting full_autorest server on port " := by decide
  have e2 : str "unable to start server: " = 117 :: str "nable to start server: " := by decide
  have e3 : str "unable to start server: " ++ str "<nil>" = str "unable to start server: <nil>" := by
    decide
  refine ⟨ht, ?_, ?_⟩
  · rw [ht, List.drop_left, e1, e2]
    simp
  · simp [startCmd.Run, logPrint, World.emit, Sprint, doPrint, Arg.isString, Arg.format, e3]

/-! ### The outcome of InvokeAutoRest -/

/-- C11, as stated, fails: the tool exits with code zero, copying its output
to the writer of the command fails, and `InvokeAutoRest` returns that error,
not nil. -/
theorem C11_copy_error_counterexample :
    (InvokeAutoRest unixPlatform
        (fun _ => { outcome := ProcessOutcome.exited 0 (some (str "write: broken pipe")),
                    fs := id, output := [] })
        { timeout := none } AutoRestLanguageGo [str "specA"]
        (AutoRestOptions.new.SetStdout (Writer.other 1)) { paths := [], trace := [] }).1
      = some { text := str "write: broken pipe", exitCode := none }
    ∧ (InvokeAutoRest unixPlatform
        (fun _ => { outcome := ProcessOutcome.exited 0 (some (str "write: broken pipe")),
                    fs := id, output := [] })
        { timeout := none } AutoRestLanguageGo [str "specA"]
        (AutoRestOptions.new.SetStdout (Writer.other 1)) { paths := [], trace := [] }).1
      ≠ none := by
  constructor
  · rfl
  · intro h
    exact absurd h (by
      show (some ({ text := str "write: broken pipe", exitCode := none } : GoError)) ≠ none
      exact Option.some_ne_none _)

/-- The error of an outcome is nil only for an exit with status zero and no
copy error. -/
theorem ProcessOutcome.error_eq_none (oc : ProcessOutcome) :
    oc.error = none ↔ oc = ProcessOutcome.exited 0 none := by
  cases oc with
  | notStarted t => simp [ProcessOutcome.error]
  | signaled t => simp [ProcessOutcome.error]
  | exited c ce =>
    cases c with
    | zero => cases ce <;> simp [ProcessOutcome.error]
    | succ n => simp [ProcessOutcome.error]

/-- An error that carries an exit code comes from an exit with that code,
which is not zero. -/
theorem ProcessOutcome.error_exitCode (oc : ProcessOutcome) (e : GoError) (c : Nat)
    (h : oc.error = some e) (hc : e.exitCode = some c) :
    c ≠ 0 ∧ ∃ ce, oc = ProcessOutcome.exited c ce := by
  cases oc with
  | notStarted t =>
    simp [ProcessOutcome.error] at h
    subst h
    simp at hc
  | signaled t =>
    simp [ProcessOutcome.error] at h
    subst h
    simp at hc
  | exited n ce =>
    cases n with
    | zero =>
      cases ce with
      | none => simp [ProcessOutcome.error] at h
      | some t =>
        simp [ProcessOutcome.error] at h
        subst h
        simp at hc
    | succ n =>
      simp [ProcessOutcome.error] at h
      subst h
      simp at hc
      subst hc
      exact ⟨Nat.succ_ne_zero n, ce, rfl⟩

/-- C11, amended: `InvokeAutoRest` returns the error of running the command
it built, unchanged. It returns nil exactly when the tool exited with code
zero and copying its output met no error; when the tool exits with a
non-zero code `c` it returns an error carrying `c`; when the process cannot
be started it returns the start error, which carries no exit code; and an
error carrying an exit code only comes from a tool that exited with that
non-zero code. -/
theorem C11_outcome_passthrough (P : Platform) (run : Cmd → RunResult) (ctx : Context)
    (L : AutoRestLanguage) (xs : List GoString) (o : AutoRestOptions) (w : World) :
    (InvokeAutoRest P run ctx L xs o w).1
        = (run (InvokeAutoRest.invoker P ctx L xs o)).outcome.error
      ∧ ((InvokeAutoRest P run ctx L xs o w).1 = none
          ↔ (run (InvokeAutoRest.invoker P ctx L xs o)).outcome = ProcessOutcome.exited 0 none)
      ∧ (∀ c ce, c ≠ 0 →
          (run (InvokeAutoRest.invoker P ctx L xs o)).outcome = ProcessOutcome.exited c ce →
          ∃ e, (InvokeAutoRest P run ctx L xs o w).1 = some e ∧ e.exitCode = some c)
      ∧ (∀ t, (run (InvokeAutoRest.invoker P ctx L xs o)).outcome = ProcessOutcome.notStarted t →
          (InvokeAutoRest P run ctx L xs o w).1 = some { text := t, exitCode := none })
      ∧ (∀ t, (run (InvokeAutoRest.invoker P ctx L xs o)).outcome
            = ProcessOutcome.exited 0 (some t) →
          (InvokeAutoRest P run ctx L xs o w).1 = some { text := t, exitCode := none })
      ∧ (∀ e c, (InvokeAutoRest P run ctx L xs o w).1 = some e → e.exitCode = some c →
          c ≠ 0 ∧ ∃ ce, (run (InvokeAutoRest.invoker P ctx L xs o)).outcome
            = ProcessOutcome.exited c ce) := by
  have hpass : (InvokeAutoRest P run ctx L xs o w).1
      = (run (InvokeAutoRest.invoker P ctx L xs o)).outcome.error := rfl
  refine ⟨hpass, ?_, ?_, ?_, ?_, ?_⟩
  · rw [hpass]
    exact ProcessOutcome.error_eq_none _
  · intro c ce hc hoc
    rw [hpass, hoc]
    cases c with
    | zero => exact absurd rfl hc
    | succ n => exact ⟨_, rfl, rfl⟩
  · intro t hoc
    rw [hpass, hoc]
    rfl
  · intro t hoc
    rw [hpass, hoc]
    rfl
  · intro e c he hc
    rw [hpass] at he
    exact ProcessOutcome.error_exitCode _ e c he hc

/-- C11, amended, at a tool that exits with code 3 and at a binary that is
not found. -/
theorem C11_outcome_passthrough_witness :
    (InvokeAutoRest unixPlatform
        (fun _ => { outcome := ProcessOutcome.exited 3 none, fs := id, output := [] })
        { timeout := none } AutoRestLanguageGo [str "specA"] AutoRestOptions.new
        { paths := [], trace := [] }).1
      = some { text := str "exit status 3", exitCode := some 3 }
    ∧ (InvokeAutoRest unixPlatform
        (fun _ => { outcome := ProcessOutcome.notStarted (str "executable file not found"),
                    fs := id, output := [] })
        { timeout := none } AutoRestLanguageGo [str "specA"] AutoRestOptions.new
        { paths := [], trace := [] }).1
      = some { text := str "executable file not found", exitCode := none } :=
  ⟨(C11_outcome_passthrough unixPlatform
      (fun _ => { outcome := ProcessOutcome.exited 3 none, fs := id, output := [] })
      { timeout := none } AutoRestLanguageGo [str "specA"] AutoRestOptions.new
      { paths := [], trace := [] }).1.trans (by decide),
   (C11_outcome_passthrough unixPlatform
      (fun _ => { outcome := ProcessOutcome.notStarted (str "executable file not found"),
                  fs := id, output := [] })
      { timeout := none } AutoRestLanguageGo [str "specA"] AutoRestOptions.new
      { paths := [], trace := [] }).2.2.2.1 (str "executable file not found") rfl⟩

/-! ### Quoting is injective -/

/-- Conversion `byte` gives back a byte from its value. -/
theorem byte_eq (n : Nat) (b : Byte) (h : n = b.val) : byte n = b := by
  apply Fin.ext
  have := b.isLt
  simp only [byte]
  omega

set_option maxRecDepth 100000 in
/-- The entries of the table `first` for the bytes from `0x80` on. -/
theorem utf8.first_cases :
    ∀ b : Fin 256, 0x80 ≤ b.val →
      (utf8.first b.val = 0xF1)
      ∨ (utf8.first b.val = 0x02 ∧ 0xC2 ≤ b.val ∧ b.val < 0xE0)
      ∨ (utf8.first b.val = 0x13 ∧ b.val = 0xE0)
      ∨ (utf8.first b.val = 0x03 ∧ 0xE1 ≤ b.val ∧ b.val < 0xF0 ∧ b.val ≠ 0xED)
      ∨ (utf8.first b.val = 0x23 ∧ b.val = 0xED)
      ∨ (utf8.first b.val = 0x34 ∧ b.val = 0xF0)
      ∨ (utf8.first b.val = 0x04 ∧ 0xF1 ≤ b.val ∧ b.val < 0xF4)
      ∨ (utf8.first b.val = 0x44 ∧ b.val = 0xF4) := by
  decide

/-- Decoding at a first byte that is not the start of an encoding. -/
theorem utf8.decode_one (b : Byte) (tl : GoString) (hf : utf8.first b.val = 0xF1) :
    utf8.DecodeRuneInString (b :: tl) = (utf8.RuneError, 1) := by
  simp [utf8.DecodeRuneInString, hf]

/-- Decoding at the first byte of a two-byte encoding. -/
theorem utf8.decode_two (b : Byte) (tl : GoString) (x lo hi : Nat)
    (hf : utf8.first b.val = x) (hx : x < 0xF0) (hsz : x % 8 = 2)
    (hacc : utf8.acceptRanges (x / 16) = (lo, hi)) :
    utf8.DecodeRuneInString (b :: tl) = (utf8.RuneError, 1)
    ∨ (∃ s1 t, tl = s1 :: t ∧ lo ≤ s1.val ∧ s1.val ≤ hi
        ∧ utf8.DecodeRuneInString (b :: tl) = ((b.val % 32) * 64 + s1.val % 64, 2)) := by
  have hx2 : ¬ (x ≥ 0xF0) := by omega
  cases tl with
  | nil =>
    left
    simp [utf8.DecodeRuneInString, hf, hx2, hsz]
  | cons s1 t =>
    by_cases h1 : s1.val < lo ∨ hi < s1.val
    · left
      simp [utf8.DecodeRuneInString, hf, hx2, hsz, hacc, h1]
    · right
      refine ⟨s1, t, rfl, by omega, by omega, ?_⟩
      simp [utf8.DecodeRuneInString, hf, hx2, hsz, hacc, h1]

/-- Decoding at the first byte of a three-byte encoding. -/
theorem utf8.decode_three (b : Byte) (tl : GoString) (x lo hi : Nat)
    (hf : utf8.first b.val = x) (hx : x < 0xF0) (hsz : x % 8 = 3)
    (hacc : utf8.acceptRanges (x / 16) = (lo, hi)) :
    utf8.DecodeRuneInString (b :: tl) = (utf8.RuneError, 1)
    ∨ (∃ s1 s2 t, tl = s1 :: s2 :: t ∧ lo ≤ s1.val ∧ s1.val ≤ hi
        ∧ 0x80 ≤ s2.val ∧ s2.val ≤ 0xBF
        ∧ utf8.DecodeRuneInString (b :: tl)
          = ((b.val % 16) * 4096 + (s1.val % 64) * 64 + s2.val % 64, 3)) := by
  have hx2 : ¬ (x ≥ 0xF0) := by omega
  rcases tl with _ | ⟨s1, _ | ⟨s2, t⟩⟩
  · left
    simp [utf8.DecodeRuneInString, hf, hx2, hsz]
  · left
    simp [utf8.DecodeRuneInString, hf, hx2, hsz]
  · by_cases h1 : s1.val < lo ∨ hi < s1.val
    · left
      simp [utf8.DecodeRuneInString, hf, hx2, hsz, hacc, h1]
    · by_cases h2 : s2.val < 0x80 ∨ 0xBF < s2.val
      · left
        simp [utf8.DecodeRuneInString, hf, hx2, hsz, hacc, h1, h2]
      · right
        refine ⟨s1, s2, t, rfl, by omega, by omega, by omega, by omega, ?_⟩
        simp [utf8.DecodeRuneInString, hf, hx2, hsz, hacc, h1, h2]

/-- Decoding at the first byte of a four-byte encoding. -/
theorem utf8.decode_four (b : Byte) (tl : GoString) (x lo hi : Nat)
    (hf : utf8.first b.val = x) (hx : x < 0xF0) (hsz : x % 8 = 4)
    (hacc : utf8.acceptRanges (x / 16) = (lo, hi)) :
    utf8.DecodeRuneInString (b :: tl) = (utf8.RuneError, 1)
    ∨ (∃ s1 s2 s3 t, tl = s1 :: s2 :: s3 :: t ∧ lo ≤ s1.val ∧ s1.val ≤ hi
        ∧ 0x80 ≤ s2.val ∧ s2.val ≤ 0xBF ∧ 0x80 ≤ s3.val ∧ s3.val ≤ 0xBF
        ∧ utf8.DecodeRuneInString (b :: tl)
          = ((b.val % 8) * 262144 + (s1.val % 64) * 4096 + (s2.val % 64) * 64 + s3.val % 64, 4)) := by
  have hx2 : ¬ (x ≥ 0xF0) := by omega
  rcases tl with _ | ⟨s1, _ | ⟨s2, _ | ⟨s3, t⟩⟩⟩
  · left
    simp [utf8.DecodeRuneInString, hf, hx2, hsz]
  · left
    simp [utf8.DecodeRuneInString, hf, hx2, hsz]
  · left
    simp [utf8.DecodeRuneInString, hf, hx2, hsz]
  · by_cases h1 : s1.val < lo ∨ hi < s1.val
    · left
      simp [utf8.DecodeRuneInString, hf, hx2, hsz, hacc, h1]
    · by_cases h2 : s2.val < 0x80 ∨ 0xBF < s2.val
      · left
        simp [utf8.DecodeRuneInString, hf, hx2, hsz, hacc, h1, h2]
      · by_cases h3 : s3.val < 0x80 ∨ 0xBF < s3.val
        · left
          simp [utf8.DecodeRuneInString, hf, hx2, hsz, hacc, h1, h2, h3]
        · right
          refine ⟨s1, s2, s3, t, rfl, by omega, by omega, by omega, by omega, by omega,
            by omega, ?_⟩
          simp [utf8.DecodeRuneInString, hf, hx2, hsz, hacc, h1, h2, h3]

/-- Encoding gives back a two-byte encoding that was decoded. -/
theorem utf8.encode_two (b s1 : Byte) (hb : 0xC2 ≤ b.val ∧ b.val < 0xE0)
    (h1 : 0x80 ≤ s1.val ∧ s1.val ≤ 0xBF) :
    utf8.AppendRune ((b.val % 32) * 64 + s1.val % 64) = [b, s1]
      ∧ 0x80 ≤ (b.val % 32) * 64 + s1.val % 64
      ∧ utf8.ValidRune ((b.val % 32) * 64 + s1.val % 64) = true := by
  have e0 : byte (0xC0 + ((b.val % 32) * 64 + s1.val % 64) / 64) = b := byte_eq _ _ (by omega)
  have e1 : byte (0x80 + ((b.val % 32) * 64 + s1.val % 64) % 64) = s1 := byte_eq _ _ (by omega)
  refine ⟨?_, by omega, ?_⟩
  · rw [utf8.AppendRune, if_neg (by omega), if_pos (by omega), e0, e1]
  · have : (b.val % 32) * 64 + s1.val % 64 < 0xD800 := by omega
    simp [utf8.ValidRune, this]

/-- Encoding gives back a three-byte encoding that was decoded. -/
theorem utf8.encode_three (b s1 s2 : Byte) (hb : 0xE0 ≤ b.val ∧ b.val < 0xF0)
    (h1 : 0x80 ≤ s1.val ∧ s1.val ≤ 0xBF) (hlo : b.val = 0xE0 → 0xA0 ≤ s1.val)
    (hhi : b.val = 0xED → s1.val ≤ 0x9F) (h2 : 0x80 ≤ s2.val ∧ s2.val ≤ 0xBF) :
    utf8.AppendRune ((b.val % 16) * 4096 + (s1.val % 64) * 64 + s2.val % 64) = [b, s1, s2]
      ∧ 0x80 ≤ (b.val % 16) * 4096 + (s1.val % 64) * 64 + s2.val % 64
      ∧ utf8.ValidRune ((b.val % 16) * 4096 + (s1.val % 64) * 64 + s2.val % 64) = true := by
  have e0 : byte (0xE0 + ((b.val % 16) * 4096 + (s1.val % 64) * 64 + s2.val % 64) / 4096) = b :=
    byte_eq _ _ (by omega)
  have e1 : byte (0x80 + ((b.val % 16) * 4096 + (s1.val % 64) * 64 + s2.val % 64) / 64 % 64)
      = s1 := byte_eq _ _ (by omega)
  have e2 : byte (0x80 + ((b.val % 16) * 4096 + (s1.val % 64) * 64 + s2.val % 64) % 64) = s2 :=
    byte_eq _ _ (by omega)
  have hge : 0x800 ≤ (b.val % 16) * 4096 + (s1.val % 64) * 64 + s2.val % 64 := by
    by_cases h : b.val = 0xE0
    · have := hlo h
      omega
    · omega
  have hsur : ¬ (0xD800 ≤ (b.val % 16) * 4096 + (s1.val % 64) * 64 + s2.val % 64
      ∧ (b.val % 16) * 4096 + (s1.val % 64) * 64 + s2.val % 64 ≤ 0xDFFF) := by
    by_cases h : b.val = 0xED
    · have := hhi h
      omega
    · omega
  have hmax : (b.val % 16) * 4096 + (s1.val % 64) * 64 + s2.val % 64 ≤ 0xFFFF := by omega
  refine ⟨?_, by omega, ?_⟩
  · rw [utf8.AppendRune, if_neg (by omega), if_neg (by omega),
      if_neg (by simp only [utf8.MaxRune]; omega), if_pos hmax, utf8.encode3, e0, e1, e2]
  · simp only [utf8.ValidRune, utf8.MaxRune, Bool.or_eq_true, Bool.and_eq_true,
      decide_eq_true_eq]
    omega

/-- Encoding gives back a four-byte encoding that was decoded. -/
theorem utf8.encode_four (b s1 s2 s3 : Byte) (hb : 0xF0 ≤ b.val ∧ b.val ≤ 0xF4)
    (h1 : 0x80 ≤ s1.val ∧ s1.val ≤ 0xBF) (hlo : b.val = 0xF0 → 0x90 ≤ s1.val)
    (hhi : b.val = 0xF4 → s1.val ≤ 0x8F) (h2 : 0x80 ≤ s2.val ∧ s2.val ≤ 0xBF)
    (h3 : 0x80 ≤ s3.val ∧ s3.val ≤ 0xBF) :
    utf8.AppendRune ((b.val % 8) * 262144 + (s1.val % 64) * 4096 + (s2.val % 64) * 64
        + s3.val % 64) = [b, s1, s2, s3]
      ∧ 0x10000 ≤ (b.val % 8) * 262144 + (s1.val % 64) * 4096 + (s2.val % 64) * 64 + s3.val % 64
      ∧ utf8.ValidRune ((b.val % 8) * 262144 + (s1.val % 64) * 4096 + (s2.val % 64) * 64
        + s3.val % 64) = true := by
  have e0 : byte (0xF0 + ((b.val % 8) * 262144 + (s1.val % 64) * 4096 + (s2.val % 64) * 64
      + s3.val % 64) / 262144) = b := byte_eq _ _ (by omega)
  have e1 : byte (0x80 + ((b.val % 8) * 262144 + (s1.val % 64) * 4096 + (s2.val % 64) * 64
      + s3.val % 64) / 4096 % 64) = s1 := byte_eq _ _ (by omega)
  have e2 : byte (0x80 + ((b.val % 8) * 262144 + (s1.val % 64) * 4096 + (s2.val % 64) * 64
      + s3.val % 64) / 64 % 64) = s2 := byte_eq _ _ (by omega)
  have e3 : byte (0x80 + ((b.val % 8) * 262144 + (s1.val % 64) * 4096 + (s2.val % 64) * 64
      + s3.val % 64) % 64) = s3 := byte_eq _ _ (by omega)
  have hge : 0x10000 ≤ (b.val % 8) * 262144 + (s1.val % 64) * 4096 + (s2.val % 64) * 64
      + s3.val % 64 := by
    by_cases h : b.val = 0xF0
    · have := hlo h
      omega
    · omega
  have hmax : (b.val % 8) * 262144 + (s1.val % 64) * 4096 + (s2.val % 64) * 64
      + s3.val % 64 ≤ 0x10FFFF := by
    by_cases h : b.val = 0xF4
    · have := hhi h
      omega
    · omega
  refine ⟨?_, hge, ?_⟩
  · rw [utf8.AppendRune, if_neg (by omega), if_neg (by omega),
      if_neg (by simp only [utf8.MaxRune]; omega), if_neg (by omega), e0, e1, e2, e3]
  · simp only [utf8.ValidRune, utf8.MaxRune, Bool.or_eq_true, Bool.and_eq_true,
      decide_eq_true_eq]
    omega

/-- Decoding at a byte from `0x80` on either fails with width 1 or reads a
valid rune whose encoding is the bytes read; the width is determined by the
first byte. -/
theorem utf8.decode_valid (b : Byte) (tl : GoString) (hb : 0x80 ≤ b.val) :
    utf8.DecodeRuneInString (b :: tl) = (utf8.RuneError, 1)
    ∨ ∃ r w, utf8.DecodeRuneInString (b :: tl) = (r, w)
        ∧ utf8.AppendRune r = (b :: tl).take w
        ∧ 0x80 ≤ r ∧ utf8.ValidRune r = true
        ∧ w ≤ tl.length + 1
        ∧ ((b.val < 0xE0 ∧ w = 2) ∨ (0xE0 ≤ b.val ∧ b.val < 0xF0 ∧ w = 3)
            ∨ (0xF0 ≤ b.val ∧ w = 4)) := by
  rcases utf8.first_cases b hb with hf | ⟨hf, hr⟩ | ⟨hf, hr⟩ | ⟨hf, hr⟩ | ⟨hf, hr⟩ | ⟨hf, hr⟩
    | ⟨hf, hr⟩ | ⟨hf, hr⟩
  · exact Or.inl (utf8.decode_one b tl hf)
  · rcases utf8.decode_two b tl _ 0x80 0xBF hf (by decide) (by decide) (by rfl) with h
      | ⟨s1, t, rfl, h1, h1', hd⟩
    · exact Or.inl h
    · have he := utf8.encode_two b s1 hr ⟨h1, h1'⟩
      exact Or.inr ⟨_, _, hd, by simpa using he.1, he.2.1, he.2.2, by simp,
        Or.inl ⟨hr.2, rfl⟩⟩
  · rcases utf8.decode_three b tl _ 0xA0 0xBF hf (by decide) (by decide) (by rfl) with h
      | ⟨s1, s2, t, rfl, h1, h1', h2, h2', hd⟩
    · exact Or.inl h
    · have he := utf8.encode_three b s1 s2 (by omega) (by omega) (fun _ => h1) (by omega)
        ⟨h2, h2'⟩
      exact Or.inr ⟨_, _, hd, by simpa using he.1, he.2.1, he.2.2, by simp,
        Or.inr (Or.inl ⟨by omega, by omega, rfl⟩)⟩
  · rcases utf8.decode_three b tl _ 0x80 0xBF hf (by decide) (by decide) (by rfl) with h
      | ⟨s1, s2, t, rfl, h1, h1', h2, h2', hd⟩
    · exact Or.inl h
    · have he := utf8.encode_three b s1 s2 (by omega) ⟨h1, h1'⟩ (by omega) (by omega)
        ⟨h2, h2'⟩
      exact Or.inr ⟨_, _, hd, by simpa using he.1, he.2.1, he.2.2, by simp,
        Or.inr (Or.inl ⟨by omega, by omega, rfl⟩)⟩
  · rcases utf8.decode_three b tl _ 0x80 0x9F hf (by decide) (by decide) (by rfl) with h
      | ⟨s1, s2, t, rfl, h1, h1', h2, h2', hd⟩
    · exact Or.inl h
    · have he := utf8.encode_three b s1 s2 (by omega) (by omega) (by omega) (fun _ => h1')
        ⟨h2, h2'⟩
      exact Or.inr ⟨_, _, hd, by simpa using he.1, he.2.1, he.2.2, by simp,
        Or.inr (Or.inl ⟨by omega, by omega, rfl⟩)⟩
  · rcases utf8.decode_four b tl _ 0x90 0xBF hf (by decide) (by decide) (by rfl) with h
      | ⟨s1, s2, s3, t, rfl, h1, h1', h2, h2', h3, h3', hd⟩
    · exact Or.inl h
    · have he := utf8.encode_four b s1 s2 s3 (by omega) (by omega) (fun _ => h1) (by omega)
        ⟨h2, h2'⟩ ⟨h3, h3'⟩
      exact Or.inr ⟨_, _, hd, by simpa using he.1, by omega, he.2.2, by simp,
        Or.inr (Or.inr ⟨by omega, rfl⟩)⟩
  · rcases utf8.decode_four b tl _ 0x80 0xBF hf (by decide) (by decide) (by rfl) with h
      | ⟨s1, s2, s3, t, rfl, h1, h1', h2, h2', h3, h3', hd⟩
    · exact Or.inl h
    · have he := utf8.encode_four b s1 s2 s3 (by omega) ⟨h1, h1'⟩ (by omega) (by omega)
        ⟨h2, h2'⟩ ⟨h3, h3'⟩
      exact Or.inr ⟨_, _, hd, by simpa using he.1, by omega, he.2.2, by simp,
        Or.inr (Or.inr ⟨by omega, rfl⟩)⟩
  · rcases utf8.decode_four b tl _ 0x80 0x8F hf (by decide) (by decide) (by rfl) with h
      | ⟨s1, s2, s3, t, rfl, h1, h1', h2, h2', h3, h3', hd⟩
    · exact Or.inl h
    · have he := utf8.encode_four b s1 s2 s3 (by omega) (by omega) (by omega) (fun _ => h1')
        ⟨h2, h2'⟩ ⟨h3, h3'⟩
      exact Or.inr ⟨_, _, hd, by simpa using he.1, by omega, he.2.2, by simp,
        Or.inr (Or.inr ⟨by omega, rfl⟩)⟩

/-- A hexadecimal digit of `lowerhex` has the value it was made from. -/
theorem strconv.hexVal_lowerhex (n : Nat) (h : n < 16) :
    strconv.hexVal (strconv.lowerhex n) = n := by
  by_cases h10 : n < 10
  · simp only [strconv.lowerhex, if_pos h10, strconv.hexVal, byte]
    have e : (48 + n) % 256 = 48 + n := by omega
    simp only [e]
    split <;> omega
  · simp only [strconv.lowerhex, if_neg h10, strconv.hexVal, byte]
    have e : (87 + n) % 256 = 87 + n := by omega
    simp only [e]
    split <;> omega

/-- The number of digits `hexDigits` writes. -/
theorem strconv.hexDigits_length (r n : Nat) : (strconv.hexDigits r n).length = n := by
  induction n with
  | zero => rfl
  | succ n ih => simp [strconv.hexDigits, ih]

/-- Reading the digits of `hexDigits`, continuing from `acc`. -/
theorem strconv.foldl_hexDigits (r n : Nat) :
    ∀ acc, (strconv.hexDigits r n).foldl (fun a d => a * 16 + strconv.hexVal d) acc
      = acc * 16 ^ n + r % 16 ^ n := by
  induction n with
  | zero => intro acc; simp [strconv.hexDigits, Nat.mod_one]
  | succ n ih =>
    intro acc
    have hd : r / 16 ^ n % 16 < 16 := Nat.mod_lt _ (by decide)
    simp only [strconv.hexDigits, List.foldl_cons, strconv.hexVal_lowerhex _ hd, ih]
    rw [Nat.mod_pow_succ]
    ring

/-- Reading the digits of `hexDigits` gives the number back. -/
theorem strconv.hexValue_hexDigits (r n : Nat) (h : r < 16 ^ n) :
    strconv.hexValue (strconv.hexDigits r n) = r := by
  rw [strconv.hexValue, strconv.foldl_hexDigits, Nat.mod_eq_of_lt h]
  simp

/-- A code word keeps its length when more output follows. -/
theorem strconv.codeLen_append (c rest : GoString) (h : strconv.isCode c) :
    strconv.codeLen (c ++ rest) = c.length := by
  obtain ⟨h1, h2, h3⟩ := h
  rcases c with _ | ⟨b0, _ | ⟨b1, t⟩⟩
  · simp at h2
  · have hb : b0.val ≠ 92 := by
      intro hb
      apply h3 rfl
      have : b0 = 92 := Fin.ext hb
      rw [this]
      rfl
    rw [← h1]
    simp [strconv.codeLen, hb]
  · rw [← h1]
    rfl

/-- A code word that does not start with a backslash stands for itself. -/
theorem strconv.unescape_literal (b0 : Byte) (t : GoString) (h : b0.val ≠ 92) :
    strconv.unescape (b0 :: t) = b0 :: t := by
  cases t with
  | nil => rfl
  | cons b1 t => simp [strconv.unescape, h]

set_option maxRecDepth 100000 in
/-- The code word of an invalid byte stands for that byte. -/
theorem strconv.unescape_hex2 :
    ∀ b : Fin 256,
      strconv.unescape [92, 120, strconv.lowerhex (b.val / 16), strconv.lowerhex (b.val % 16)]
        = [b] := by
  decide

set_option maxRecDepth 100000 in
/-- The code word of every ASCII character stands for that character. -/
theorem strconv.escape_ascii_closed :
    ∀ b : Fin 256, b.val < 0x80 →
      strconv.unescape (strconv.appendEscapedRune (fun _ => false) b.val 34) = [b]
        ∧ strconv.isCode (strconv.appendEscapedRune (fun _ => false) b.val 34) := by
  decide

/-- The code word of an ASCII character, whatever the tables of wide
characters are. -/
theorem strconv.escape_ascii (wide : Nat → Bool) (b : Byte) (hb : b.val < 0x80) :
    strconv.unescape (strconv.appendEscapedRune wide b.val 34) = [b]
      ∧ strconv.isCode (strconv.appendEscapedRune wide b.val 34) := by
  have hp : strconv.IsPrint wide b.val = strconv.IsPrint (fun _ => false) b.val := by
    have : b.val ≤ 0xFF := by omega
    simp only [strconv.IsPrint, if_pos this]
  have he : strconv.appendEscapedRune wide b.val 34
      = strconv.appendEscapedRune (fun _ => false) b.val 34 := by
    simp only [strconv.appendEscapedRune, hp]
  rw [he]
  exact strconv.escape_ascii_closed b hb

/-- The code word of a valid rune from `0x80` on is its encoding, or an
escape that stands for its encoding. -/
theorem strconv.escape_wide (wide : Nat → Bool) (r : Nat) (h80 : 0x80 ≤ r)
    (hv : utf8.ValidRune r = true) :
    strconv.appendEscapedRune wide r 34 = utf8.AppendRune r
      ∨ (strconv.unescape (strconv.appendEscapedRune wide r 34) = utf8.AppendRune r
          ∧ strconv.isCode (strconv.appendEscapedRune wide r 34)) := by
  have hmax : r ≤ 0x10FFFF := by
    simp only [utf8.ValidRune, utf8.MaxRune, Bool.or_eq_true, Bool.and_eq_true,
      decide_eq_true_eq] at hv
    omega
  have hq : ¬ (r = (34 : Byte).val ∨ r = 92) := by
    rintro (h | h)
    · have : (34 : Byte).val = 34 := rfl
      omega
    · omega
  by_cases hp : strconv.IsPrint wide r = true
  · left
    rw [strconv.appendEscapedRune, if_neg hq, if_pos hp]
  · right
    have hnv : ¬ ((!utf8.ValidRune r) = true) := by simp [hv]
    by_cases h16 : r < 0x10000
    · have hc : strconv.appendEscapedRune wide r 34 = 92 :: 117 :: strconv.hexDigits r 4 := by
        rw [strconv.appendEscapedRune, if_neg hq, if_neg hp, if_neg (by omega),
          if_neg (by omega), if_neg (by omega), if_neg (by omega), if_neg (by omega),
          if_neg (by omega), if_neg (by omega), if_neg (by omega), if_neg hnv, if_pos h16]
      have hu : strconv.unescape (92 :: 117 :: strconv.hexDigits r 4)
          = utf8.AppendRune (strconv.hexValue (strconv.hexDigits r 4)) := rfl
      have hcl : strconv.codeLen (92 :: 117 :: strconv.hexDigits r 4) = 6 := rfl
      rw [hc]
      refine ⟨?_, ?_⟩
      · rw [hu, strconv.hexValue_hexDigits r 4 (by omega)]
      · have hl := strconv.hexDigits_length r 4
        simp [strconv.isCode, hcl, hl]
    · have hc : strconv.appendEscapedRune wide r 34 = 92 :: 85 :: strconv.hexDigits r 8 := by
        rw [strconv.appendEscapedRune, if_neg hq, if_neg hp, if_neg (by omega),
          if_neg (by omega), if_neg (by omega), if_neg (by omega), if_neg (by omega),
          if_neg (by omega), if_neg (by omega), if_neg (by omega), if_neg hnv, if_neg h16]
      have hu : strconv.unescape (92 :: 85 :: strconv.hexDigits r 8)
          = utf8.AppendRune (strconv.hexValue (strconv.hexDigits r 8)) := rfl
      have hcl : strconv.codeLen (92 :: 85 :: strconv.hexDigits r 8) = 10 := rfl
      rw [hc]
      refine ⟨?_, ?_⟩
      · rw [hu, strconv.hexValue_hexDigits r 8 (by omega)]
      · have hl := strconv.hexDigits_length r 8
        simp [strconv.isCode, hcl, hl]

/-- One iteration of the loop of `strconv.Quote`, in terms of `chunk`. -/
theorem strconv.quoteLoop_cons (wide : Nat → Bool) (fuel : Nat) (b : Byte) (tl : GoString) :
    strconv.quoteLoop wide 34 (fuel + 1) (b :: tl)
      = (strconv.chunk wide b tl).1
        ++ strconv.quoteLoop wide 34 fuel ((b :: tl).drop (strconv.chunk wide b tl).2) := by
  simp only [strconv.quoteLoop, strconv.chunk]
  split_ifs <;> rfl

/-- The loop of `strconv.Quote` on the empty string. -/
theorem strconv.quoteLoop_nil (wide : Nat → Bool) (fuel : Nat) :
    strconv.quoteLoop wide 34 fuel [] = [] := by
  cases fuel <;> rfl

/-- What one iteration of the loop of `strconv.Quote` appends is a code word
that stands for the bytes the iteration consumed. -/
theorem strconv.chunk_spec (wide : Nat → Bool) (b : Byte) (tl : GoString) :
    1 ≤ (strconv.chunk wide b tl).2
      ∧ (strconv.chunk wide b tl).2 ≤ tl.length + 1
      ∧ strconv.unescape (strconv.chunk wide b tl).1 = (b :: tl).take (strconv.chunk wide b tl).2
      ∧ 1 ≤ (strconv.chunk wide b tl).1.length
      ∧ ∀ rest, strconv.codeLen ((strconv.chunk wide b tl).1 ++ rest)
          = (strconv.chunk wide b tl).1.length := by
  by_cases hb : b.val < 0x80
  · have hc : strconv.chunk wide b tl = (strconv.appendEscapedRune wide b.val 34, 1) := by
      have h1 : ¬ (b.val ≥ utf8.RuneSelf) := by simp only [utf8.RuneSelf]; omega
      have h2 : ¬ (True ∧ b.val = utf8.RuneError) := by
        simp only [utf8.RuneError]; omega
      rw [strconv.chunk]
      simp only [if_neg h1]
      rw [if_neg h2]
    have he := strconv.escape_ascii wide b hb
    rw [hc]
    exact ⟨Nat.le_refl 1, by simp, by simpa using he.1, he.2.2.1,
      fun rest => strconv.codeLen_append _ rest he.2⟩
  · have hb2 : 0x80 ≤ b.val := by omega
    have h1 : b.val ≥ utf8.RuneSelf := by simp only [utf8.RuneSelf]; omega
    rcases utf8.decode_valid b tl hb2 with hd | ⟨r, w, hd, henc, h80, hv, hw, hlen⟩
    · have hc : strconv.chunk wide b tl
          = ([92, 120, strconv.lowerhex (b.val / 16), strconv.lowerhex (b.val % 16)], 1) := by
        simp only [strconv.chunk, if_pos h1, hd, and_self, if_true]
      rw [hc]
      exact ⟨Nat.le_refl 1, by simp, by simpa using strconv.unescape_hex2 b, by simp,
        fun rest => rfl⟩
    · have hw2 : 2 ≤ w := by omega
      have hc : strconv.chunk wide b tl = (strconv.appendEscapedRune wide r 34, w) := by
        have h2 : ¬ (w = 1 ∧ r = utf8.RuneError) := by omega
        simp only [strconv.chunk, if_pos h1, hd, if_neg h2]
      obtain ⟨w', rfl⟩ : ∃ w', w = w' + 1 := ⟨w - 1, by omega⟩
      have htake : (b :: tl).take (w' + 1) = b :: tl.take w' := rfl
      have hb92 : b.val ≠ 92 := by omega
      rw [hc]
      refine ⟨by omega, hw, ?_⟩
      rcases strconv.escape_wide wide r h80 hv with he | ⟨he1, he2⟩
      · have hcw : strconv.appendEscapedRune wide r 34 = b :: tl.take w' := by
          rw [he, henc, htake]
        have hl : (tl.take w').length = w' := by
          rw [List.length_take]
          omega
        simp only [hcw]
        refine ⟨?_, by simp, ?_⟩
        · rw [htake]
          exact strconv.unescape_literal b _ hb92
        · intro rest
          have h128 : ¬ (b.val < 0x80) := hb
          simp only [List.cons_append, strconv.codeLen, if_neg hb92, if_neg h128,
            List.length_cons, hl]
          rcases hlen with ⟨h, hw⟩ | ⟨h, h', hw⟩ | ⟨h, hw⟩
          · rw [if_pos h]; omega
          · rw [if_neg (by omega), if_pos h']; omega
          · rw [if_neg (by omega), if_neg (by omega)]; omega
      · exact ⟨by rw [he1, henc], he2.2.1, fun rest => strconv.codeLen_append _ rest he2⟩

/-- The loop of `strconv.Quote` is injective: two strings with the same
output are equal. -/
theorem strconv.quoteLoop_inj (wide : Nat → Bool) :
    ∀ (n : Nat) (s1 s2 : GoString) (f1 f2 : Nat), s1.length ≤ n → s1.length ≤ f1 →
      s2.length ≤ f2 → strconv.quoteLoop wide 34 f1 s1 = strconv.quoteLoop wide 34 f2 s2 →
      s1 = s2 := by
  have hne : ∀ (f : Nat) (b : Byte) (tl : GoString),
      strconv.quoteLoop wide 34 (f + 1) (b :: tl) ≠ [] := by
    intro f b tl h
    rw [strconv.quoteLoop_cons] at h
    have := (strconv.chunk_spec wide b tl).2.2.2.1
    have h0 := congrArg List.length h
    simp only [List.length_append, List.length_nil] at h0
    omega
  intro n
  induction n with
  | zero =>
    intro s1 s2 f1 f2 h1 _ hf2 h
    have e1 : s1 = [] := List.length_eq_zero.mp (by omega)
    subst e1
    rw [strconv.quoteLoop_nil] at h
    cases s2 with
    | nil => rfl
    | cons b2 t2 =>
      obtain ⟨g, rfl⟩ : ∃ g, f2 = g + 1 := ⟨f2 - 1, by simp at hf2; omega⟩
      exact absurd h.symm (hne g b2 t2)
  | succ n ih =>
    intro s1 s2 f1 f2 h1 hf1 hf2 h
    cases s1 with
    | nil =>
      rw [strconv.quoteLoop_nil] at h
      cases s2 with
      | nil => rfl
      | cons b2 t2 =>
        obtain ⟨g, rfl⟩ : ∃ g, f2 = g + 1 := ⟨f2 - 1, by simp at hf2; omega⟩
        exact absurd h.symm (hne g b2 t2)
    | cons b1 t1 =>
      obtain ⟨g1, rfl⟩ : ∃ g, f1 = g + 1 := ⟨f1 - 1, by simp at hf1; omega⟩
      cases s2 with
      | nil =>
        rw [strconv.quoteLoop_nil] at h
        exact absurd h (hne g1 b1 t1)
      | cons b2 t2 =>
        obtain ⟨g2, rfl⟩ : ∃ g, f2 = g + 1 := ⟨f2 - 1, by simp at hf2; omega⟩
        rw [strconv.quoteLoop_cons, strconv.quoteLoop_cons] at h
        obtain ⟨p1, q1, u1, _, c1⟩ := strconv.chunk_spec wide b1 t1
        obtain ⟨p2, q2, u2, _, c2⟩ := strconv.chunk_spec wide b2 t2
        have hlen : (strconv.chunk wide b1 t1).1.length = (strconv.chunk wide b2 t2).1.length := by
          rw [← c1 _, ← c2 _, h]
        obtain ⟨hc, hr⟩ := List.append_inj h hlen
        have htake : (b1 :: t1).take (strconv.chunk wide b1 t1).2
            = (b2 :: t2).take (strconv.chunk wide b2 t2).2 := by
          rw [← u1, ← u2, hc]
        have hw : (strconv.chunk wide b1 t1).2 = (strconv.chunk wide b2 t2).2 := by
          have := congrArg List.length htake
          simp only [List.length_take, List.length_cons] at this
          omega
        simp only [List.length_cons] at h1 hf1 hf2
        have hdrop := ih ((b1 :: t1).drop (strconv.chunk wide b1 t1).2)
          ((b2 :: t2).drop (strconv.chunk wide b2 t2).2) g1 g2
          (by simp only [List.length_drop, List.length_cons]; omega)
          (by simp only [List.length_drop, List.length_cons]; omega)
          (by simp only [List.length_drop, List.length_cons]; omega) hr
        rw [← List.take_append_drop (strconv.chunk wide b1 t1).2 (b1 :: t1),
          ← List.take_append_drop (strconv.chunk wide b2 t2).2 (b2 :: t2), htake, hdrop]

/-- Function `strconv.Quote` is injective. -/
theorem strconv.Quote_inj (wide : Nat → Bool) (v1 v2 : GoString)
    (h : strconv.Quote wide v1 = strconv.Quote wide v2) : v1 = v2 := by
  simp only [strconv.Quote, List.cons_append, List.cons.injEq, true_and] at h
  have h2 := List.append_cancel_right h
  exact strconv.quoteLoop_inj wide v1.length v1 v2 v1.length v2.length (Nat.le_refl _)
    (Nat.le_refl _) (Nat.le_refl _) h2

/-- A flag followed by a quoted value determines the value. -/
theorem quoted_token_inj (wide : Nat → Bool) (pre v1 v2 : GoString)
    (h : pre ++ strconv.Quote wide v1 = pre ++ strconv.Quote wide v2) : v1 = v2 :=
  strconv.Quote_inj wide v1 v2 (List.append_cancel_left h)

/-- A `--use=` token is not a `--tag=` token. -/
theorem use_token_ne_tag_token (q1 q2 : GoString) : str "--use=" ++ q1 ≠ str "--tag=" ++ q2 := by
  intro e
  apply use_not_in_tag q2
  rw [← e]
  exact List.prefix_append _ _

/-- Two options values that give the same argument vector for the same
language and inputs have the same use field, the same tag field and the same
resolved output folder. -/
theorem invoker_Args_inj (P : Platform) (ctx : Context) (L : AutoRestLanguage)
    (xs : List GoString) (o1 o2 : AutoRestOptions)
    (h : (InvokeAutoRest.invoker P ctx L xs o1).Args = (InvokeAutoRest.invoker P ctx L xs o2).Args) :
    o1.use = o2.use ∧ o1.tag = o2.tag ∧ (o1.OutputFolder P).1 = (o2.OutputFolder P).1 := by
  rw [invoker_Args, invoker_Args] at h
  simp only [List.cons.injEq, true_and] at h
  have hA := List.append_cancel_right h
  obtain ⟨hUT, hO⟩ := List.append_inj' hA rfl
  have hfolder : (o1.OutputFolder P).1 = (o2.OutputFolder P).1 := by
    simp only [List.cons.injEq, and_true] at hO
    exact quoted_token_inj _ _ _ _ hO
  have hne := use_token_ne_tag_token
  cases hu1 : o1.use with
  | none =>
    cases hu2 : o2.use with
    | none =>
      cases ht1 : o1.tag with
      | none =>
        cases ht2 : o2.tag with
        | none => exact ⟨rfl, rfl, hfolder⟩
        | some t2 => simp [AutoRestOptions.Use, AutoRestOptions.Tag, hu1, hu2, ht1, ht2] at hUT
      | some t1 =>
        cases ht2 : o2.tag with
        | none => simp [AutoRestOptions.Use, AutoRestOptions.Tag, hu1, hu2, ht1, ht2] at hUT
        | some t2 =>
          simp only [AutoRestOptions.Use, AutoRestOptions.Tag, hu1, hu2, ht1, ht2, if_true,
            Bool.false_eq_true, if_false, List.nil_append, List.cons.injEq, and_true] at hUT
          exact ⟨rfl, by rw [quoted_token_inj _ _ _ _ hUT], hfolder⟩
    | some u2 =>
      cases ht1 : o1.tag with
      | none =>
        cases ht2 : o2.tag <;>
          simp [AutoRestOptions.Use, AutoRestOptions.Tag, hu1, hu2, ht1, ht2] at hUT
      | some t1 =>
        cases ht2 : o2.tag with
        | none =>
          simp only [AutoRestOptions.Use, AutoRestOptions.Tag, hu1, hu2, ht1, ht2, if_true,
            Bool.false_eq_true, if_false, List.nil_append, List.append_nil, List.cons.injEq,
            and_true] at hUT
          exact absurd hUT.symm (hne _ _)
        | some t2 => simp [AutoRestOptions.Use, AutoRestOptions.Tag, hu1, hu2, ht1, ht2] at hUT
  | some u1 =>
    cases hu2 : o2.use with
    | none =>
      cases ht1 : o1.tag with
      | none =>
        cases ht2 : o2.tag with
        | none => simp [AutoRestOptions.Use, AutoRestOptions.Tag, hu1, hu2, ht1, ht2] at hUT
        | some t2 =>
          simp only [AutoRestOptions.Use, AutoRestOptions.Tag, hu1, hu2, ht1, ht2, if_true,
            Bool.false_eq_true, if_false, List.nil_append, List.append_nil, List.cons.injEq,
            and_true] at hUT
          exact absurd hUT (hne _ _)
      | some t1 =>
        cases ht2 : o2.tag <;>
          simp [AutoRestOptions.Use, AutoRestOptions.Tag, hu1, hu2, ht1, ht2] at hUT
    | some u2 =>
      cases ht1 : o1.tag with
      | none =>
        cases ht2 : o2.tag with
        | none =>
          simp only [AutoRestOptions.Use, AutoRestOptions.Tag, hu1, hu2, ht1, ht2, if_true,
            Bool.false_eq_true, if_false, List.append_nil, List.cons.injEq, and_true] at hUT
          exact ⟨by rw [quoted_token_inj _ _ _ _ hUT], rfl, hfolder⟩
        | some t2 => simp [AutoRestOptions.Use, AutoRestOptions.Tag, hu1, hu2, ht1, ht2] at hUT
      | some t1 =>
        cases ht2 : o2.tag with
        | none => simp [AutoRestOptions.Use, AutoRestOptions.Tag, hu1, hu2, ht1, ht2] at hUT
        | some t2 =>
          simp only [AutoRestOptions.Use, AutoRestOptions.Tag, hu1, hu2, ht1, ht2, if_true,
            List.singleton_append, List.cons.injEq, and_true] at hUT
          exact ⟨by rw [quoted_token_inj _ _ _ _ hUT.1], by rw [quoted_token_inj _ _ _ _ hUT.2],
            hfolder⟩

/-- C18: the quoting is injective: for two distinct strings `v1` and `v2`
the tokens `--tag=<quoted v1>` and `--tag=<quoted v2>` differ, likewise for
`--use=` and `--output-folder=`; so with the same language and inputs, two
options values in which the same field is explicitly set, to `v1` in one and
to `v2` in the other, never give the same argument vector. More generally
the argument vector determines the use field, the tag field and the resolved
output folder. -/
theorem C18_quoting_injective (P : Platform) (v1 v2 : GoString) (h : v1 ≠ v2) :
    Sprintf_q P (str "--tag=") v1 ≠ Sprintf_q P (str "--tag=") v2
      ∧ Sprintf_q P (str "--use=") v1 ≠ Sprintf_q P (str "--use=") v2
      ∧ Sprintf_q P (str "--output-folder=") v1 ≠ Sprintf_q P (str "--output-folder=") v2
      ∧ ∀ (ctx : Context) (L : AutoRestLanguage) (xs : List GoString) (o1 o2 : AutoRestOptions),
          (o1.tag = some v1 → o2.tag = some v2 →
            (InvokeAutoRest.invoker P ctx L xs o1).Args
              ≠ (InvokeAutoRest.invoker P ctx L xs o2).Args)
          ∧ (o1.use = some v1 → o2.use = some v2 →
            (InvokeAutoRest.invoker P ctx L xs o1).Args
              ≠ (InvokeAutoRest.invoker P ctx L xs o2).Args)
          ∧ (o1.outputFolder = some v1 → o2.outputFolder = some v2 →
            (InvokeAutoRest.invoker P ctx L xs o1).Args
              ≠ (InvokeAutoRest.invoker P ctx L xs o2).Args)
          ∧ ((InvokeAutoRest.invoker P ctx L xs o1).Args
              = (InvokeAutoRest.invoker P ctx L xs o2).Args →
            o1.use = o2.use ∧ o1.tag = o2.tag
              ∧ (o1.OutputFolder P).1 = (o2.OutputFolder P).1) := by
  refine ⟨fun e => h (quoted_token_inj _ _ _ _ e), fun e => h (quoted_token_inj _ _ _ _ e),
    fun e => h (quoted_token_inj _ _ _ _ e), ?_⟩
  intro ctx L xs o1 o2
  refine ⟨?_, ?_, ?_, invoker_Args_inj P ctx L xs o1 o2⟩
  · intro h1 h2 e
    have := (invoker_Args_inj P ctx L xs o1 o2 e).2.1
    rw [h1, h2] at this
    exact h (Option.some.inj this)
  · intro h1 h2 e
    have := (invoker_Args_inj P ctx L xs o1 o2 e).1
    rw [h1, h2] at this
    exact h (Option.some.inj this)
  · intro h1 h2 e
    have := (invoker_Args_inj P ctx L xs o1 o2 e).2.2
    simp only [AutoRestOptions.OutputFolder, h1, h2] at this
    exact h this

/-- C18 at the tags `a` and `b`. -/
theorem C18_quoting_injective_witness :
    Sprintf_q unixPlatform (str "--tag=") (str "a")
        ≠ Sprintf_q unixPlatform (str "--tag=") (str "b")
      ∧ (InvokeAutoRest.invoker unixPlatform { timeout := none } AutoRestLanguageGo
          [str "specA"] (AutoRestOptions.new.SetTag (str "a"))).Args
        ≠ (InvokeAutoRest.invoker unixPlatform { timeout := none } AutoRestLanguageGo
          [str "specA"] (AutoRestOptions.new.SetTag (str "b"))).Args :=
  have h := C18_quoting_injective unixPlatform (str "a") (str "b") (by decide)
  ⟨h.1, (h.2.2.2 { timeout := none } AutoRestLanguageGo [str "specA"]
    (AutoRestOptions.new.SetTag (str "a")) (AutoRestOptions.new.SetTag (str "b"))).1 rfl rfl⟩

/-! ### The fuel of the loops is enough -/

/-- The loop of `strconv.Quote` gives the same output for every fuel from the
length of the string on: with `s.length` fuel the loop runs to the end of
the string. -/
theorem strconv.quoteLoop_fuel (wide : Nat → Bool) :
    ∀ (n : Nat) (s : GoString) (f1 f2 : Nat), s.length ≤ n → s.length ≤ f1 → s.length ≤ f2 →
      strconv.quoteLoop wide 34 f1 s = strconv.quoteLoop wide 34 f2 s := by
  intro n
  induction n with
  | zero =>
    intro s f1 f2 h _ _
    have e : s = [] := List.length_eq_zero.mp (by omega)
    subst e
    rw [strconv.quoteLoop_nil, strconv.quoteLoop_nil]
  | succ n ih =>
    intro s f1 f2 h h1 h2
    cases s with
    | nil => rw [strconv.quoteLoop_nil, strconv.quoteLoop_nil]
    | cons b tl =>
      obtain ⟨g1, rfl⟩ : ∃ g, f1 = g + 1 := ⟨f1 - 1, by simp at h1; omega⟩
      obtain ⟨g2, rfl⟩ : ∃ g, f2 = g + 1 := ⟨f2 - 1, by simp at h2; omega⟩
      obtain ⟨p, _, _, _, _⟩ := strconv.chunk_spec wide b tl
      simp only [List.length_cons] at h h1 h2
      rw [strconv.quoteLoop_cons, strconv.quoteLoop_cons,
        ih ((b :: tl).drop (strconv.chunk wide b tl).2) g1 g2
          (by simp only [List.length_drop, List.length_cons]; omega)
          (by simp only [List.length_drop, List.length_cons]; omega)
          (by simp only [List.length_drop, List.length_cons]; omega)]

/-- Dropping a leading run of bytes does not make a string longer. -/
theorem path.length_dropWhile_le (p : Byte → Bool) (l : GoString) :
    (l.dropWhile p).length ≤ l.length := by
  induction l with
  | nil => simp
  | cons a t ih =>
    simp only [List.dropWhile_cons]
    split
    · simp only [List.length_cons]; omega
    · simp

/-- The main loop of `path.Clean` gives the same result for every fuel from
the length of the rest of the path on: with `p.length` fuel the loop runs to
the end of the path. -/
theorem path.cleanLoop_fuel (rooted : Bool) :
    ∀ (n : Nat) (rest out : GoString) (dd f1 f2 : Nat), rest.length ≤ n → rest.length ≤ f1 →
      rest.length ≤ f2 →
      path.cleanLoop rooted f1 rest out dd = path.cleanLoop rooted f2 rest out dd := by
  intro n
  induction n with
  | zero =>
    intro rest out dd f1 f2 h _ _
    have e : rest = [] := List.length_eq_zero.mp (by omega)
    subst e
    rw [path.cleanLoop_nil, path.cleanLoop_nil]
  | succ n ih =>
    intro rest out dd f1 f2 h h1 h2
    cases rest with
    | nil => rw [path.cleanLoop_nil, path.cleanLoop_nil]
    | cons c tl =>
      obtain ⟨g1, rfl⟩ : ∃ g, f1 = g + 1 := ⟨f1 - 1, by simp at h1; omega⟩
      obtain ⟨g2, rfl⟩ : ∃ g, f2 = g + 1 := ⟨f2 - 1, by simp at h2; omega⟩
      simp only [List.length_cons] at h h1 h2
      have htail : tl.tail.length ≤ tl.length := by simp
      have hdrop := path.length_dropWhile_le (fun x => x != path.slash) tl
      have hdc : ((c :: tl).dropWhile (fun x => x != path.slash)).length ≤ tl.length + 1 :=
        path.length_dropWhile_le (fun x => x != path.slash) (c :: tl)
      simp only [path.cleanLoop]
      split_ifs with hc
      all_goals first
        | exact ih _ _ _ g1 g2 (by omega) (by omega) (by omega)
        | (have hcs : (c != path.slash) = true := by simpa using hc
           simp only [List.dropWhile_cons, hcs, if_true]
           exact ih _ _ _ g1 g2 (by omega) (by omega) (by omega))


end FullAutorest
